import Mathlib

/-!
Verification development for the KORMARC cataloging core: the record data
model (Leader, control/data fields), the line-oriented record parser, the
TOON identifier scheme (Crockford Base32 over a 48-bit millisecond
timestamp plus 80 random bits) and the three-tier validation pipeline.

Python strings are embedded as `List Char` (Python compares strings by
code point, which coincides with `Char` order).  Python byte strings are
`List Nat` with every element below 256.  Fallible operations return
`Except` or `Option`.
-/

set_option maxRecDepth 100000

namespace Kormarc

deriving instance DecidableEq for Except

/-! ## Python character and string primitives -/

/-- Characters with the Unicode white-space property, as used by Python
`str.strip` and `str.split` (ASCII space, tab, newline, vertical tab,
form feed, carriage return, the C1 separators, NBSP and the Unicode
space characters). -/
def pyIsSpaceChar (c : Char) : Bool :=
  (9 ≤ c.toNat && c.toNat ≤ 13) || (28 ≤ c.toNat && c.toNat ≤ 31) ||
  c.toNat == 32 || c.toNat == 133 || c.toNat == 160 || c.toNat == 0x1680 ||
  (0x2000 ≤ c.toNat && c.toNat ≤ 0x200a) || c.toNat == 0x2028 ||
  c.toNat == 0x2029 || c.toNat == 0x202f || c.toNat == 0x205f || c.toNat == 0x3000

/-- Python `str.strip()`: remove white space from both ends. -/
def pyStrip (l : List Char) : List Char :=
  ((l.dropWhile pyIsSpaceChar).reverse.dropWhile pyIsSpaceChar).reverse

/-- Line-break characters recognised by Python `str.splitlines`
(`\n`, `\r`, `\v`, `\f`, FS, GS, RS, NEL, LS, PS; `\r\n` counts as one). -/
def pyIsLineBreak (c : Char) : Bool :=
  c.toNat == 10 || c.toNat == 13 || c.toNat == 11 || c.toNat == 12 ||
  c.toNat == 28 || c.toNat == 29 || c.toNat == 30 || c.toNat == 133 ||
  c.toNat == 0x2028 || c.toNat == 0x2029

/-- Worker for `pySplitLines`: accumulates the current line (reversed). -/
def pySplitLinesGo : List Char → List Char → List (List Char)
  | [], acc => [acc.reverse]
  | '\r' :: '\n' :: rest, acc =>
      acc.reverse :: (match rest with | [] => [] | _ :: _ => pySplitLinesGo rest [])
  | c :: rest, acc =>
      if pyIsLineBreak c then
        acc.reverse :: (match rest with | [] => [] | _ :: _ => pySplitLinesGo rest [])
      else pySplitLinesGo rest (c :: acc)

/-- Python `str.splitlines()`: no trailing empty line for a trailing
terminator, and the empty string yields no lines. -/
def pySplitLines (l : List Char) : List (List Char) :=
  match l with
  | [] => []
  | _ :: _ => pySplitLinesGo l []

/-- Python `str.split(maxsplit=1)` with no separator: skip leading white
space, take the first run of non-space characters, skip the following
white space, and return the remainder verbatim (dropped when empty). -/
def pySplitMax1 (l : List Char) : List (List Char) :=
  let l1 := l.dropWhile pyIsSpaceChar
  if l1.isEmpty then []
  else
    let tok := l1.takeWhile (fun c => !pyIsSpaceChar c)
    let rest := (l1.dropWhile (fun c => !pyIsSpaceChar c)).dropWhile pyIsSpaceChar
    if rest.isEmpty then [tok] else [tok, rest]

/-- Python `str.zfill(width)` on the unsigned strings the parser feeds it
(the sign-aware branch of `zfill` is never reached by a digit-only tag). -/
def pyZfill (width : Nat) (l : List Char) : List Char :=
  if width ≤ l.length then l else List.replicate (width - l.length) '0' ++ l

/-- ASCII decimal digit test; `str.isdigit` also accepts some non-ASCII
digit code points, which the record grammar never produces. -/
def pyIsDigit (c : Char) : Bool := '0' ≤ c && c ≤ '9'

/-- Numeric value of a list of ASCII digits, most significant first. -/
def digitsVal (l : List Char) : Nat := l.foldl (fun a c => a * 10 + (c.toNat - 48)) 0

/-- Python `int(s)` on the forms the parser can feed it: surrounding white
space is tolerated, then a non-empty run of digits; anything else raises
`ValueError` (`none`).  Signs and underscores, which no 24-character
leader slice or digit-checked tag ever carries into a successful
construction, are rejected here as well. -/
def pyInt (l : List Char) : Option Nat :=
  let s := pyStrip l
  if !s.isEmpty && s.all pyIsDigit then some (digitsVal s) else none

/-- Python `str.upper` restricted to ASCII; the identifier alphabet and
prefixes contain only ASCII characters. -/
def pyUpperChar (c : Char) : Char :=
  if 'a' ≤ c && c ≤ 'z' then Char.ofNat (c.toNat - 32) else c

/-- Python `str.lower` restricted to ASCII. -/
def pyLowerChar (c : Char) : Char :=
  if 'A' ≤ c && c ≤ 'Z' then Char.ofNat (c.toNat + 32) else c

/-- Python string comparison `s < t`: lexicographic on code points. -/
def pyLt : List Char → List Char → Bool
  | [], [] => false
  | [], _ :: _ => true
  | _ :: _, [] => false
  | a :: as, b :: bs => if a < b then true else if a = b then pyLt as bs else false

/-- Decimal digit character. -/
def digitChar (d : Nat) : Char := Char.ofNat (48 + d)

/-- Worker for `decChars`; the fuel bounds the number of divisions by 10. -/
def decCharsF : Nat → Nat → List Char → List Char
  | 0, _, acc => acc
  | fuel + 1, n, acc =>
      if n < 10 then digitChar n :: acc
      else decCharsF fuel (n / 10) (digitChar (n % 10) :: acc)

/-- Python `str(n)` / `f-string` rendering of a non-negative integer. -/
def decChars (n : Nat) : List Char := decCharsF (n + 1) n []

/-- Python `f-string` `:05d` rendering of a non-negative integer: exactly
five zero-padded digits below 100000, the plain decimal form above. -/
def format05 (n : Nat) : List Char :=
  if n < 100000 then
    [digitChar (n / 10000), digitChar (n / 1000 % 10), digitChar (n / 100 % 10),
     digitChar (n / 10 % 10), digitChar (n % 10)]
  else decChars n

/-! ## Fixed-width big-endian digit strings

`bitsDigits w k v` is the `k`-digit, `w`-bits-per-digit, most-significant
first rendering of `v`; `valsVal w` is its inverse.  `int.to_bytes(k,
byteorder="big")` is `bitsDigits 8 k` and `int.from_bytes(_, "big")` is
`valsVal 8`. -/

def bitsDigits (w : Nat) : Nat → Nat → List Nat
  | 0, _ => []
  | k + 1, v => (v >>> (w * k)) % 2 ^ w :: bitsDigits w k v

def valsVal (w : Nat) : List Nat → Nat
  | [] => 0
  | d :: ds => d * 2 ^ (w * ds.length) + valsVal w ds

@[simp] theorem bitsDigits_length (w k v : Nat) : (bitsDigits w k v).length = k := by
  induction k generalizing v with
  | zero => rfl
  | succ k ih => simp [bitsDigits, ih]

theorem bitsDigits_lt (w k v : Nat) : ∀ d ∈ bitsDigits w k v, d < 2 ^ w := by
  induction k generalizing v with
  | zero => simp [bitsDigits]
  | succ k ih =>
    intro d hd
    rcases List.mem_cons.mp hd with h | h
    · exact h ▸ Nat.mod_lt _ (Nat.pos_pow_of_pos w (by norm_num))
    · exact ih v d h

theorem valsVal_lt (w : Nat) (ds : List Nat) (h : ∀ d ∈ ds, d < 2 ^ w) :
    valsVal w ds < 2 ^ (w * ds.length) := by
  induction ds with
  | nil => simp [valsVal]
  | cons d ds ih =>
    have hd : d < 2 ^ w := h d (List.mem_cons_self _ _)
    have hds := ih (fun x hx => h x (List.mem_cons_of_mem _ hx))
    have : d * 2 ^ (w * ds.length) + valsVal w ds <
        (d + 1) * 2 ^ (w * ds.length) := by nlinarith [Nat.pos_pow_of_pos (w * ds.length) (show 0 < 2 by norm_num)]
    calc d * 2 ^ (w * ds.length) + valsVal w ds
        < (d + 1) * 2 ^ (w * ds.length) := this
      _ ≤ 2 ^ w * 2 ^ (w * ds.length) := Nat.mul_le_mul_right _ hd
      _ = 2 ^ (w * (ds.length + 1)) := by rw [← pow_add]; ring_nf


theorem valsVal_append (w : Nat) (a b : List Nat) :
    valsVal w (a ++ b) = valsVal w a * 2 ^ (w * b.length) + valsVal w b := by
  induction a with
  | nil => simp [valsVal]
  | cons d a ih =>
    show d * 2 ^ (w * (a ++ b).length) + valsVal w (a ++ b) =
      (d * 2 ^ (w * a.length) + valsVal w a) * 2 ^ (w * b.length) + valsVal w b
    rw [ih, List.length_append, Nat.mul_add, pow_add]
    ring

/-- Decomposing a remainder modulo a product into its two digit layers. -/
theorem mod_mul_decomp (x m n : Nat) : x % (m * n) = (x / m % n) * m + x % m := by
  conv_lhs => rw [← Nat.div_add_mod (x % (m * n)) m]
  rw [Nat.mod_mul_right_div_self, Nat.mod_mod_of_dvd x (dvd_mul_right m n)]
  ring

/-- A digit window never sees bits above the mask. -/
theorem bitsDigits_mod (w k v : Nat) : bitsDigits w k v = bitsDigits w k (v % 2 ^ (w * k)) := by
  induction k generalizing v with
  | zero => rfl
  | succ k ih =>
    simp only [bitsDigits]
    have hpow : (2 : Nat) ^ (w * (k + 1)) = 2 ^ (w * k) * 2 ^ w := by
      rw [← pow_add]; ring_nf
    have hhead : ((v % 2 ^ (w * (k + 1))) >>> (w * k)) % 2 ^ w = (v >>> (w * k)) % 2 ^ w := by
      rw [Nat.shiftRight_eq_div_pow, Nat.shiftRight_eq_div_pow, hpow,
        Nat.mod_mul_right_div_self, Nat.mod_mod_of_dvd _ dvd_rfl]
    have hdvd : (2 : Nat) ^ (w * k) ∣ 2 ^ (w * (k + 1)) :=
      pow_dvd_pow 2 (Nat.mul_le_mul_left w (Nat.le_succ k))
    have htail : bitsDigits w k (v % 2 ^ (w * (k + 1))) = bitsDigits w k v := by
      rw [ih (v % 2 ^ (w * (k + 1))), Nat.mod_mod_of_dvd v hdvd, ← ih v]
    rw [hhead, htail]

/-- Splitting a fixed-width digit string: the first `j` digits render the
high bits, the last `k` digits render the low bits. -/
theorem bitsDigits_append (w j k v : Nat) :
    bitsDigits w (j + k) v = bitsDigits w j (v >>> (w * k)) ++ bitsDigits w k v := by
  induction j generalizing v with
  | zero => simp [bitsDigits]
  | succ j ih =>
    have : j + 1 + k = (j + k) + 1 := by omega
    rw [this]
    simp only [bitsDigits, List.cons_append]
    rw [ih]
    congr 1
    rw [Nat.shiftRight_eq_div_pow, Nat.shiftRight_eq_div_pow, Nat.shiftRight_eq_div_pow,
      Nat.div_div_eq_div_mul, ← pow_add]
    congr 2
    ring

/-- Reading back a digit string recovers the value modulo the width. -/
theorem valsVal_bitsDigits (w k v : Nat) : valsVal w (bitsDigits w k v) = v % 2 ^ (w * k) := by
  induction k generalizing v with
  | zero => simp [bitsDigits, valsVal, Nat.mod_one]
  | succ k ih =>
    simp only [bitsDigits, valsVal, bitsDigits_length, ih]
    rw [Nat.shiftRight_eq_div_pow]
    have hpow : (2 : Nat) ^ (w * (k + 1)) = 2 ^ (w * k) * 2 ^ w := by
      rw [← pow_add]; ring_nf
    rw [hpow, mod_mul_decomp]

/-- A digit string of the right width reads back to its own value. -/
theorem bitsDigits_valsVal (w : Nat) (ds : List Nat) (h : ∀ d ∈ ds, d < 2 ^ w) :
    bitsDigits w ds.length (valsVal w ds) = ds := by
  induction ds with
  | nil => rfl
  | cons d ds ih =>
    have hd : d < 2 ^ w := h d (List.mem_cons_self _ _)
    have hds : ∀ x ∈ ds, x < 2 ^ w := fun x hx => h x (List.mem_cons_of_mem _ hx)
    have hlt : valsVal w ds < 2 ^ (w * ds.length) := valsVal_lt w ds hds
    simp only [List.length_cons, bitsDigits, valsVal]
    have hhead : ((d * 2 ^ (w * ds.length) + valsVal w ds) >>> (w * ds.length)) % 2 ^ w = d := by
      rw [Nat.shiftRight_eq_div_pow, Nat.mul_comm d,
        Nat.mul_add_div (Nat.pos_pow_of_pos _ (by norm_num)),
        Nat.div_eq_of_lt hlt, Nat.add_zero, Nat.mod_eq_of_lt hd]
    have htail : bitsDigits w ds.length (d * 2 ^ (w * ds.length) + valsVal w ds) = ds := by
      rw [bitsDigits_mod]
      have hm : (d * 2 ^ (w * ds.length) + valsVal w ds) % 2 ^ (w * ds.length) = valsVal w ds := by
        rw [Nat.add_comm, Nat.add_mul_mod_self_right, Nat.mod_eq_of_lt hlt]
      rw [hm]
      exact ih hds
    rw [hhead, htail]

/-! ## The shared buffer loop of the Base32 codec

Both `encode_base32` and `decode_base32` in `toon_generator.py` keep an
integer `buffer` and a counter `bits_left`, shift each input unit of `w`
bits into the buffer, and emit output units of `u` bits from the top of
the buffer while `bits_left >= u`.  `emitLoop` is the inner `while` loop
(the fuel argument bounds its iterations; `bits` iterations always
suffice since each pass removes `u ≥ 1` bits), and `codecCore` is the
outer `for` loop, returning the emitted units together with the final
buffer and `bits_left`. -/

def emitLoopF (u buffer : Nat) : Nat → Nat → List Nat
  | 0, _ => []
  | fuel + 1, bits =>
      if u ≤ bits then
        ((buffer >>> (bits - u)) &&& (2 ^ u - 1)) :: emitLoopF u buffer fuel (bits - u)
      else []

def emitLoop (u buffer bits : Nat) : List Nat := emitLoopF u buffer bits bits

def codecCore (w u : Nat) : List Nat → Nat → Nat → List Nat × Nat × Nat
  | [], buffer, bits => ([], buffer, bits)
  | x :: rest, buffer, bits =>
      let nb := (buffer <<< w) ||| x
      let out := emitLoop u nb (bits + w)
      let r := codecCore w u rest nb ((bits + w) % u)
      (out ++ r.1, r.2.1, r.2.2)

theorem emitLoopF_eq (u buffer : Nat) (hu : 0 < u) :
    ∀ fuel bits, bits ≤ fuel →
      emitLoopF u buffer fuel bits = bitsDigits u (bits / u) (buffer >>> (bits % u)) := by
  intro fuel
  induction fuel with
  | zero =>
    intro bits hb
    interval_cases bits
    simp [emitLoopF, bitsDigits, Nat.zero_div]
  | succ fuel ih =>
    intro bits hb
    by_cases hle : u ≤ bits
    · have hmod : (bits - u) % u = bits % u := by
        conv_rhs => rw [← Nat.sub_add_cancel hle]
        rw [Nat.add_mod_right]
      have hdiv : bits / u = (bits - u) / u + 1 := Nat.div_eq_sub_div hu hle
      have hsub : bits - u = bits % u + u * ((bits - u) / u) := by
        conv_lhs => rw [← Nat.div_add_mod (bits - u) u]
        rw [hmod]; ring
      simp only [emitLoopF, if_pos hle]
      rw [ih (bits - u) (by omega), hdiv]
      simp only [bitsDigits]
      congr 1
      · rw [Nat.and_pow_two_sub_one_eq_mod, ← Nat.shiftRight_add, ← hsub]
      · rw [hmod]
    · have : bits / u = 0 := Nat.div_eq_of_lt (by omega)
      simp [emitLoopF, if_neg hle, this, bitsDigits]

theorem emitLoop_eq (u buffer bits : Nat) (hu : 0 < u) :
    emitLoop u buffer bits = bitsDigits u (bits / u) (buffer >>> (bits % u)) :=
  emitLoopF_eq u buffer hu bits bits le_rfl

/-- Closed form of the whole buffer loop: starting with `bits < u` buffered
bits, feeding `data` (each unit below `2 ^ w`) emits exactly the full
`u`-bit digits of the accumulated bit string, keeps the leftover low bits
in the buffer, and leaves `(bits + w·n) % u` bits pending. -/
theorem codecCore_eq (w u : Nat) (hu : 0 < u) :
    ∀ (data : List Nat) (buffer bits : Nat), (∀ x ∈ data, x < 2 ^ w) → bits < u →
      codecCore w u data buffer bits =
        (bitsDigits u ((bits + w * data.length) / u)
           (((buffer % 2 ^ bits) * 2 ^ (w * data.length) + valsVal w data) >>>
             ((bits + w * data.length) % u)),
         buffer * 2 ^ (w * data.length) + valsVal w data,
         (bits + w * data.length) % u) := by
  intro data
  induction data with
  | nil =>
    intro buffer bits _ hb
    simp [codecCore, valsVal, Nat.mod_eq_of_lt hb, Nat.div_eq_of_lt hb, bitsDigits]
  | cons x rest ih =>
    intro buffer bits hbound hb
    have hx : x < 2 ^ w := hbound x (List.mem_cons_self _ _)
    have hrest : ∀ y ∈ rest, y < 2 ^ w := fun y hy => hbound y (List.mem_cons_of_mem _ hy)
    have h2w : (0 : Nat) < 2 ^ w := Nat.pos_pow_of_pos w (by norm_num)
    have h2wm : (0 : Nat) < 2 ^ (w * rest.length) := Nat.pos_pow_of_pos _ (by norm_num)
    have h1 : (buffer <<< w) ||| x = 2 ^ w * buffer + x := by
      rw [Nat.shiftLeft_eq, Nat.mul_comm buffer]
      exact (Nat.mul_add_lt_is_or hx buffer).symm
    set m := rest.length with hm
    set nb := 2 ^ w * buffer + x with hnb
    set j := (bits + w) / u with hj
    set r₁ := (bits + w) % u with hr₁
    have hr₁u : r₁ < u := Nat.mod_lt _ hu
    set T := r₁ + w * m with hT
    set M := (buffer % 2 ^ bits) * 2 ^ w + x with hM
    set R := valsVal w rest with hR
    set V := (buffer % 2 ^ bits) * 2 ^ w * 2 ^ (w * m) + (x * 2 ^ (w * m) + R) with hV
    have hVM : V = M * 2 ^ (w * m) + R := by rw [hV, hM]; ring
    have hRlt : R < 2 ^ (w * m) := valsVal_lt w rest hrest
    have hjr : bits + w = u * j + r₁ := (Nat.div_add_mod (bits + w) u).symm
    have hbw : 2 ^ (bits + w) = 2 ^ w * 2 ^ bits := by rw [← pow_add]; ring_nf
    have hTeq : 2 ^ T = 2 ^ (w * m) * 2 ^ r₁ := by rw [hT, ← pow_add]; ring_nf
    have hnbmod : nb % 2 ^ (bits + w) = M := by
      rw [hbw, mod_mul_decomp, hnb]
      have hdiv : (2 ^ w * buffer + x) / 2 ^ w = buffer := by
        rw [Nat.mul_add_div h2w, Nat.div_eq_of_lt hx, Nat.add_zero]
      have hmod : (2 ^ w * buffer + x) % 2 ^ w = x := by
        rw [Nat.mul_add_mod, Nat.mod_eq_of_lt hx]
      rw [hdiv, hmod, hM]
    have hbm : buffer % 2 ^ bits < 2 ^ bits := Nat.mod_lt _ (Nat.pos_pow_of_pos _ (by norm_num))
    have hMlt : M < 2 ^ (bits + w) := by
      rw [hM, hbw]
      calc (buffer % 2 ^ bits) * 2 ^ w + x < (buffer % 2 ^ bits) * 2 ^ w + 2 ^ w := by omega
        _ = (buffer % 2 ^ bits + 1) * 2 ^ w := by ring
        _ ≤ 2 ^ bits * 2 ^ w := Nat.mul_le_mul_right _ hbm
        _ = 2 ^ w * 2 ^ bits := by ring
    have hVT : V >>> T = M >>> r₁ := by
      rw [hVM, Nat.shiftRight_eq_div_pow, Nat.shiftRight_eq_div_pow, hTeq,
        ← Nat.div_div_eq_div_mul, Nat.mul_comm M, Nat.mul_add_div h2wm,
        Nat.div_eq_of_lt hRlt, Nat.add_zero]
    have hmodshift : ∀ y a b : Nat, (y >>> a) % 2 ^ (u * b) = (y % 2 ^ (a + u * b)) >>> a := by
      intro y a b
      rw [Nat.shiftRight_eq_div_pow, Nat.shiftRight_eq_div_pow,
        show (2 : Nat) ^ (a + u * b) = 2 ^ a * 2 ^ (u * b) by rw [← pow_add],
        Nat.mod_mul_right_div_self]
    have hr₁le : r₁ + u * j = bits + w := by omega
    have hdigitsA : bitsDigits u j (nb >>> r₁) = bitsDigits u j (V >>> T) := by
      rw [hVT, bitsDigits_mod u j (nb >>> r₁), bitsDigits_mod u j (M >>> r₁),
        hmodshift nb r₁ j, hmodshift M r₁ j, hr₁le, hnbmod, Nat.mod_eq_of_lt hMlt]
    have hVmodT : V % 2 ^ T = (nb % 2 ^ r₁) * 2 ^ (w * m) + R := by
      rw [hVM, hTeq, mod_mul_decomp]
      have hdiv : (M * 2 ^ (w * m) + R) / 2 ^ (w * m) = M := by
        rw [Nat.mul_comm M, Nat.mul_add_div h2wm, Nat.div_eq_of_lt hRlt, Nat.add_zero]
      have hmod : (M * 2 ^ (w * m) + R) % 2 ^ (w * m) = R := by
        rw [Nat.mul_comm M, Nat.mul_add_mod, Nat.mod_eq_of_lt hRlt]
      have hMr : M % 2 ^ r₁ = nb % 2 ^ r₁ := by
        rw [← hnbmod, Nat.mod_mod_of_dvd nb (pow_dvd_pow 2 (by omega : r₁ ≤ bits + w))]
      rw [hdiv, hmod, hMr]
    have hV'lt : (nb % 2 ^ r₁) * 2 ^ (w * m) + R < 2 ^ T := by
      have hnbr : nb % 2 ^ r₁ < 2 ^ r₁ := Nat.mod_lt _ (Nat.pos_pow_of_pos _ (by norm_num))
      rw [hTeq]
      calc (nb % 2 ^ r₁) * 2 ^ (w * m) + R < (nb % 2 ^ r₁) * 2 ^ (w * m) + 2 ^ (w * m) := by omega
        _ = (nb % 2 ^ r₁ + 1) * 2 ^ (w * m) := by ring
        _ ≤ 2 ^ r₁ * 2 ^ (w * m) := Nat.mul_le_mul_right _ hnbr
        _ = 2 ^ (w * m) * 2 ^ r₁ := by ring
    have hdigitsB : bitsDigits u (T / u) (((nb % 2 ^ r₁) * 2 ^ (w * m) + R) >>> (T % u)) =
        bitsDigits u (T / u) (V >>> (T % u)) := by
      have hTdm := Nat.div_add_mod T u
      have hTr : T % u + u * (T / u) = T := by omega
      rw [bitsDigits_mod u (T / u) (((nb % 2 ^ r₁) * 2 ^ (w * m) + R) >>> (T % u)),
        bitsDigits_mod u (T / u) (V >>> (T % u)),
        hmodshift _ (T % u) (T / u), hmodshift V (T % u) (T / u), hTr, hVmodT,
        Nat.mod_eq_of_lt hV'lt]
    have hlen : w * (x :: rest).length = w * m + w := by simp [hm]; ring
    have hTtot : bits + (w * m + w) = u * j + T := by omega
    have hTdiv : (bits + (w * m + w)) / u = j + T / u := by
      rw [hTtot, Nat.mul_add_div hu]
    have hTmod : (bits + (w * m + w)) % u = T % u := by
      rw [hTtot, Nat.mul_add_mod]
    simp only [codecCore, h1, ← hnb]
    rw [ih nb r₁ hrest hr₁u]
    simp only [Prod.mk.injEq, hlen, hTdiv, hTmod]
    refine ⟨?_, ?_, trivial⟩
    · rw [bitsDigits_append]
      have hgoalV : (buffer % 2 ^ bits) * 2 ^ (w * m + w) + valsVal w (x :: rest) = V := by
        rw [hV, valsVal, ← hR, ← hm, pow_add]
        ring
      rw [hgoalV]
      congr 1
      · rw [emitLoop_eq u nb (bits + w) hu, ← hj, ← hr₁, hdigitsA, ← Nat.shiftRight_add]
        have hTr2 : T % u + u * (T / u) = T := by
          have hTdm := Nat.div_add_mod T u
          omega
        rw [hTr2]
    · rw [valsVal, ← hR, ← hm, pow_add, hnb]
      ring

/-! ## Crockford Base32 codec (`toon_generator.py`) -/

/-- `BASE32_ALPHABET = "0123456789ABCDEFGHJKMNPQRSTVWXYZ"`. -/
def BASE32_ALPHABET : List Char :=
  ['0', '1', '2', '3', '4', '5', '6', '7', '8', '9', 'A', 'B', 'C', 'D', 'E', 'F',
   'G', 'H', 'J', 'K', 'M', 'N', 'P', 'Q', 'R', 'S', 'T', 'V', 'W', 'X', 'Y', 'Z']

/-- `BASE32_ALPHABET[index]` for a 5-bit index. -/
def b32char (i : Nat) : Char := BASE32_ALPHABET.getD i '0'

/-- Lookup in `BASE32_DECODE_MAP`: the alphabet in both cases, plus the
look-alike entries `i → 1`, `l → 1`, `o → 0`. -/
def BASE32_DECODE_MAP (c : Char) : Option Nat :=
  if c = 'i' || c = 'l' then some 1
  else if c = 'o' then some 0
  else match BASE32_ALPHABET.indexOf? c with
    | some i => some i
    | none => BASE32_ALPHABET.indexOf? (pyUpperChar c)

/-- `encode_base32`: shift each byte into the buffer, emit 5-bit groups
from the top while possible, and left-pad the final partial group with
zero bits.  (`codecCore` emits raw 5-bit values; the alphabet lookup the
Python loop performs per symbol is applied by the final `map`.) -/
def encode_base32 (data : List Nat) : List Char :=
  let core := codecCore 8 5 data 0 0
  (core.1 ++ (if 0 < core.2.2 then [(core.2.1 <<< (5 - core.2.2)) &&& 0x1F] else [])).map b32char

/-- Worker of `decode_base32`: every character through
`BASE32_DECODE_MAP`, failing on the first unmapped character. -/
def b32Lookups : List Char → Option (List Nat)
  | [] => some []
  | c :: rest =>
      match BASE32_DECODE_MAP c, b32Lookups rest with
      | some v, some vs => some (v :: vs)
      | _, _ => none

/-- `decode_base32`: upper-case the input, drop `-` and spaces, map every
character through the decode table (a missing entry raises `ValueError`),
then shift 5-bit groups in and emit bytes while at least 8 bits are
buffered; fewer than 8 leftover bits are discarded. -/
def decode_base32 (encoded : List Char) : Except String (List Nat) :=
  let cleaned := (encoded.map pyUpperChar).filter (fun c => c ≠ '-' && c ≠ ' ')
  match b32Lookups cleaned with
  | none => .error "Invalid Base32 character"
  | some vals => .ok (codecCore 5 8 vals 0 0).1

/-- Number of Base32 symbols produced for `n` input bytes. -/
def b32SymbolCount (n : Nat) : Nat := (8 * n + 4) / 5

/-- Zero bits appended to the final partial group for `n` input bytes. -/
def b32PadBits (n : Nat) : Nat := (5 - (8 * n) % 5) % 5

/-- Closed form of `encode_base32`: the `⌈8n/5⌉` base-32 digits of the
byte value shifted left by the pad bits. -/
theorem encode_base32_eq (data : List Nat) (hd : ∀ x ∈ data, x < 256) :
    encode_base32 data =
      (bitsDigits 5 (b32SymbolCount data.length)
        (valsVal 8 data * 2 ^ b32PadBits data.length)).map b32char := by
  have h256 : ∀ x ∈ data, x < 2 ^ 8 := hd
  have hcore := codecCore_eq 8 5 (by norm_num) data 0 0 h256 (by norm_num)
  unfold encode_base32
  rw [hcore]
  simp only [Nat.zero_mod, Nat.zero_mul, Nat.zero_add]
  by_cases hr : 8 * data.length % 5 = 0
  · rw [hr, if_neg (lt_irrefl 0)]
    have hpad : b32PadBits data.length = 0 := by unfold b32PadBits; omega
    have hcount : b32SymbolCount data.length = 8 * data.length / 5 := by
      have := Nat.div_add_mod (8 * data.length) 5
      unfold b32SymbolCount
      omega
    rw [hpad, hcount, pow_zero, Nat.mul_one, List.append_nil, Nat.shiftRight_zero]
  · have hrlt : 8 * data.length % 5 < 5 := Nat.mod_lt _ (by norm_num)
    have hdm := Nat.div_add_mod (8 * data.length) 5
    rw [if_pos (by omega)]
    have hcount : b32SymbolCount data.length = 8 * data.length / 5 + 1 := by
      unfold b32SymbolCount; omega
    have hpad : b32PadBits data.length = 5 - 8 * data.length % 5 := by
      unfold b32PadBits; omega
    rw [hcount, hpad, bitsDigits_append 5 (8 * data.length / 5) 1, List.map_append,
      List.map_append]
    congr 2
    · rw [Nat.shiftRight_eq_div_pow, Nat.shiftRight_eq_div_pow,
        show (2:Nat) ^ (5 * 1) = 2 ^ (5 - 8 * data.length % 5) * 2 ^ (8 * data.length % 5) by
          rw [← pow_add]; congr 1; omega,
        ← Nat.div_div_eq_div_mul,
        Nat.mul_div_cancel _ (Nat.pos_pow_of_pos _ (by norm_num))]
    · simp only [bitsDigits, Nat.mul_zero, Nat.shiftRight_zero, List.map_cons, List.map_nil]
      congr 2
      rw [show (0x1F : Nat) = 2 ^ 5 - 1 by norm_num, Nat.and_pow_two_sub_one_eq_mod,
        Nat.shiftLeft_eq]

/-- Closed form of the decoding loop on valid 5-bit values: the top
`⌊5m/8⌋` bytes of the accumulated bit string; leftover bits are dropped. -/
theorem decode_vals_eq (vals : List Nat) (hv : ∀ v ∈ vals, v < 2 ^ 5) :
    (codecCore 5 8 vals 0 0).1 =
      bitsDigits 8 (5 * vals.length / 8) (valsVal 5 vals >>> (5 * vals.length % 8)) := by
  have hcore := codecCore_eq 5 8 (by norm_num) vals 0 0 hv (by norm_num)
  rw [hcore]
  simp only [Nat.zero_mod, Nat.zero_mul, Nat.zero_add]

/-- Decode-table inverse of the alphabet on its own output. -/
theorem b32_decode_char : ∀ i < 32, BASE32_DECODE_MAP (b32char i) = some i := by decide

/-- The alphabet is upper case already. -/
theorem b32_upper_fix : ∀ i < 32, pyUpperChar (b32char i) = b32char i := by decide

/-- No alphabet character is a dash or a space. -/
theorem b32_keep : ∀ i < 32, (b32char i ≠ '-' && b32char i ≠ ' ') = true := by decide

theorem encode_chars_clean (ds : List Nat) (h : ∀ d ∈ ds, d < 32) :
    ((ds.map b32char).map pyUpperChar).filter (fun c => c ≠ '-' && c ≠ ' ') =
      ds.map b32char := by
  induction ds with
  | nil => rfl
  | cons d ds ih =>
    have hd : d < 32 := h d (List.mem_cons_self _ _)
    have hds : ∀ x ∈ ds, x < 32 := fun x hx => h x (List.mem_cons_of_mem _ hx)
    simp only [List.map_cons, List.filter_cons, b32_upper_fix d hd, b32_keep d hd, ih hds,
      if_true]

theorem b32Lookups_map (ds : List Nat) (h : ∀ d ∈ ds, d < 32) :
    b32Lookups (ds.map b32char) = some ds := by
  induction ds with
  | nil => rfl
  | cons d ds ih =>
    have hd : d < 32 := h d (List.mem_cons_self _ _)
    have hds : ∀ x ∈ ds, x < 32 := fun x hx => h x (List.mem_cons_of_mem _ hx)
    simp only [List.map_cons, b32Lookups, b32_decode_char d hd, ih hds]

/-- Round trip of the code-level Base32 pair on arbitrary byte strings:
the zero padding added by `encode` never assembles into an extra byte, so
`decode` recovers the input exactly. -/
theorem decode_encode_roundtrip (data : List Nat) (hd : ∀ x ∈ data, x < 256) :
    decode_base32 (encode_base32 data) = .ok data := by
  have h256 : ∀ x ∈ data, x < 2 ^ 8 := hd
  rw [encode_base32_eq data hd]
  unfold decode_base32
  have hds : ∀ d ∈ bitsDigits 5 (b32SymbolCount data.length)
      (valsVal 8 data * 2 ^ b32PadBits data.length), d < 32 := by
    intro d hdm
    have := bitsDigits_lt 5 (b32SymbolCount data.length)
      (valsVal 8 data * 2 ^ b32PadBits data.length) d hdm
    norm_num at this
    exact this
  have hds' : ∀ d ∈ bitsDigits 5 (b32SymbolCount data.length)
      (valsVal 8 data * 2 ^ b32PadBits data.length), d < 2 ^ 5 := by
    intro d hdm; have := hds d hdm; norm_num; exact this
  simp only [encode_chars_clean _ hds, b32Lookups_map _ hds]
  simp only [decode_vals_eq _ hds', bitsDigits_length]
  have hP : b32PadBits data.length < 8 := by unfold b32PadBits; omega
  have h5C : 5 * b32SymbolCount data.length = 8 * data.length + b32PadBits data.length := by
    unfold b32SymbolCount b32PadBits; omega
  have hAlt : valsVal 8 data < 2 ^ (8 * data.length) := valsVal_lt 8 data h256
  have hlt : valsVal 8 data * 2 ^ b32PadBits data.length <
      2 ^ (5 * b32SymbolCount data.length) := by
    rw [h5C, pow_add]
    exact (Nat.mul_lt_mul_right (Nat.pos_pow_of_pos _ (by norm_num))).mpr hAlt
  rw [valsVal_bitsDigits, Nat.mod_eq_of_lt hlt,
    show 5 * b32SymbolCount data.length / 8 = data.length by omega,
    show 5 * b32SymbolCount data.length % 8 = b32PadBits data.length by omega,
    Nat.shiftRight_eq_div_pow,
    Nat.mul_div_cancel _ (Nat.pos_pow_of_pos _ (by norm_num))]
  congr 1
  exact bitsDigits_valsVal 8 data h256

/-! ## Character order bridges -/

theorem char_le_toNat {a b : Char} : a ≤ b ↔ a.toNat ≤ b.toNat := by
  rw [Char.le_def, UInt32.le_def, BitVec.le_def]
  exact Iff.rfl

theorem char_lt_toNat {a b : Char} : a < b ↔ a.toNat < b.toNat := by
  rw [Char.lt_def, UInt32.lt_def, BitVec.lt_def]
  exact Iff.rfl

/-! ## TOON identifiers (`toon_generator.py`) -/

def isLowerAZ (c : Char) : Bool := 'a' ≤ c && c ≤ 'z'

/-- Tail of the prefix pattern `[a-z]+(?:_[a-z]+)*` after its first
letter: the string may end, an underscore must be followed by at least
one more letter, and letters continue the current group. -/
def prefixTail : List Char → Bool
  | [] => true
  | c :: rest =>
      if c = '_' then
        match rest with
        | [] => false
        | d :: rest2 => isLowerAZ d && prefixTail rest2
      else isLowerAZ c && prefixTail rest

/-- Whole-string match of `[a-z]+(?:_[a-z]+)*`, the prefix group of
`TOON_PATTERN`. -/
def prefixPatOk : List Char → Bool
  | [] => false
  | c :: rest => isLowerAZ c && prefixTail rest

/-- Case-insensitive membership in the `[0-9A-HJ-KM-NP-TV-Z]` character
class of `TOON_PATTERN`/`ULID_PATTERN` (compiled with `re.IGNORECASE`). -/
def ulidClassChar (c : Char) : Bool :=
  pyIsDigit c ||
  (('A' ≤ c && c ≤ 'Z') && !(c = 'I' || c = 'L' || c = 'O' || c = 'U')) ||
  (('a' ≤ c && c ≤ 'z') && !(c = 'i' || c = 'l' || c = 'o' || c = 'u'))

/-- `re.match` of the anchored `TOON_PATTERN`
`^([a-z]+(?:_[a-z]+)*)_([0-9A-HJ-KM-NP-TV-Z]\x7b26\x7d)$` against the whole
string.  Because the second group is exactly 26 characters wide and ends
at `$`, its span is forced to be the last 26 characters; the preceding
character must be the `_` separator (the class contains no underscore),
and the first group is everything before it. -/
def toonMatch (s : List Char) : Option (List Char × List Char) :=
  if 27 < s.length then
    let pre := s.take (s.length - 27)
    let sep := s.getD (s.length - 27) ' '
    let u := s.drop (s.length - 26)
    if sep = '_' && prefixPatOk pre && u.all ulidClassChar then some (pre, u) else none
  else none

/-- Result of `TOONGenerator.parse`.  The Python dict also carries
`created_at`, a `datetime` computed as `fromtimestamp(timestamp_ms /
1000)`; wall-clock/float conversion is outside this embedding and the
field is therefore omitted (theorems about `parse` restrict timestamps to
the range where that conversion is defined). -/
structure TOONInfo where
  type : List Char
  subtype : List Char
  ulid : List Char
  timestamp_ms : Nat
deriving DecidableEq, Repr

namespace TOONGenerator

/-- `TOONGenerator.generate`: mask the timestamp to 48 bits, concatenate
`timestamp_ms.to_bytes(6, "big")` (that is `bitsDigits 8 6`) with the
10-byte random payload, Base32-encode, upper-case (a no-op on this
alphabet), truncate to 26 symbols and attach the type prefix.  The
source asserts `len(random_bytes) == 10`; theorems about `generate`
carry that assumption as a hypothesis. -/
def generate (record_type : List Char) (timestamp_ms : Nat) (random_bytes : List Nat) :
    List Char :=
  record_type ++ '_' ::
    (((encode_base32 (bitsDigits 8 6 (timestamp_ms &&& 0xFFFFFFFFFFFF) ++ random_bytes)).map
        pyUpperChar).take 26)

/-- `TOONGenerator.parse`: strip, lower-case, match `TOON_PATTERN`,
Base32-decode the 26-symbol payload and read the first six decoded bytes
as the big-endian millisecond timestamp. -/
def parse (toon_id : List Char) : Except String TOONInfo :=
  let s := (pyStrip toon_id).map pyLowerChar
  match toonMatch s with
  | none => .error "Invalid TOON format"
  | some (pre, u) =>
    match decode_base32 u with
    | .error e => .error e
    | .ok decoded =>
      let parts := pre.splitOn '_'
      .ok { type := pre.map pyLowerChar,
            subtype := (if 2 ≤ parts.length then List.intercalate ['_'] parts.tail
                        else []).map pyLowerChar,
            ulid := u.map pyUpperChar,
            timestamp_ms := valsVal 8 (decoded.take 6) }

/-- `TOONGenerator.validate`: true iff `parse` succeeds. -/
def validate (toon_id : List Char) : Bool :=
  match parse toon_id with
  | .ok _ => true
  | .error _ => false

end TOONGenerator

/-! ## Closed forms and ordering facts for TOON identifiers -/

theorem map_upper_b32 (ds : List Nat) (h : ∀ d ∈ ds, d < 32) :
    (ds.map b32char).map pyUpperChar = ds.map b32char := by
  induction ds with
  | nil => rfl
  | cons d ds ih =>
    have hd : d < 32 := h d (List.mem_cons_self _ _)
    have hds : ∀ x ∈ ds, x < 32 := fun x hx => h x (List.mem_cons_of_mem _ hx)
    simp only [List.map_cons, b32_upper_fix d hd, ih hds]

/-- Sixteen input bytes yield exactly the 26 base-32 digits of the byte
value times `2 ^ 2`. -/
theorem encode_base32_16 (data : List Nat) (hd : ∀ x ∈ data, x < 256)
    (hlen : data.length = 16) :
    encode_base32 data = (bitsDigits 5 26 (valsVal 8 data * 4)).map b32char := by
  rw [encode_base32_eq data hd, hlen]
  norm_num [b32SymbolCount, b32PadBits]

/-- The ULID payload of `generate`, in closed form: the `upper()` is a
no-op on the alphabet and the `[:26]` truncation discards nothing. -/
theorem generate_closed (p : List Char) (t : Nat) (r : List Nat) (ht : t < 2 ^ 48)
    (hrl : r.length = 10) (hrb : ∀ b ∈ r, b < 256) :
    TOONGenerator.generate p t r =
      p ++ '_' :: (bitsDigits 5 26 ((t * 2 ^ 80 + valsVal 8 r) * 4)).map b32char := by
  unfold TOONGenerator.generate
  have hmask : t &&& 0xFFFFFFFFFFFF = t := by
    have : (0xFFFFFFFFFFFF : Nat) = 2 ^ 48 - 1 := by norm_num
    rw [this]
    exact Nat.and_pow_two_sub_one_of_lt_two_pow ht
  rw [hmask]
  have hbytes : ∀ x ∈ bitsDigits 8 6 t ++ r, x < 256 := by
    intro x hx
    rcases List.mem_append.mp hx with h | h
    · have := bitsDigits_lt 8 6 t x h; norm_num at this; exact this
    · exact hrb x h
  have hlen : (bitsDigits 8 6 t ++ r).length = 16 := by
    simp [hrl]
  rw [encode_base32_16 _ hbytes hlen]
  have hval : valsVal 8 (bitsDigits 8 6 t ++ r) = t * 2 ^ 80 + valsVal 8 r := by
    rw [valsVal_append, valsVal_bitsDigits, hrl,
      Nat.mod_eq_of_lt (show t < 2 ^ (8 * 6) by simpa using ht)]
  rw [hval]
  have hds : ∀ d ∈ bitsDigits 5 26 ((t * 2 ^ 80 + valsVal 8 r) * 4), d < 32 := by
    intro d hdm
    have := bitsDigits_lt 5 26 _ d hdm
    norm_num at this
    exact this
  rw [map_upper_b32 _ hds]
  have htake : ∀ l : List Char, l.length = 26 → l.take 26 = l := by
    intro l h
    rw [← h, List.take_length]
  rw [htake _ (by simp)]

theorem pyLt_head {x y : Char} (xs ys : List Char) (h : x < y) :
    pyLt (x :: xs) (y :: ys) = true := by
  simp [pyLt, if_pos h]

theorem pyLt_append (p a b : List Char) : pyLt (p ++ a) (p ++ b) = pyLt a b := by
  induction p with
  | nil => rfl
  | cons c p ih => simp [pyLt, lt_irrefl, ih]

/-- The alphabet is strictly increasing in code points. -/
theorem b32char_mono : ∀ i < 32, ∀ j < 32, i < j → b32char i < b32char j := by decide

/-- Fixed-width digit strings over a strictly increasing alphabet compare
lexicographically exactly as their values. -/
theorem pyLt_digits (k : Nat) : ∀ a b : Nat, a < b → b < 2 ^ (5 * k) →
    pyLt ((bitsDigits 5 k a).map b32char) ((bitsDigits 5 k b).map b32char) = true := by
  induction k with
  | zero =>
    intro a b hab hb
    norm_num at hb
    omega
  | succ k ih =>
    intro a b hab hb
    have h2 : (0:Nat) < 2 ^ (5 * k) := Nat.pos_pow_of_pos _ (by norm_num)
    have hbd : b >>> (5 * k) < 2 ^ 5 := by
      rw [Nat.shiftRight_eq_div_pow]
      rw [Nat.div_lt_iff_lt_mul h2, ← pow_add]
      have : 5 * k + 5 = 5 * (k + 1) := by ring
      rw [Nat.add_comm 5 (5*k), this]
      exact hb
    have had : a >>> (5 * k) < 2 ^ 5 := by
      rw [Nat.shiftRight_eq_div_pow]
      rw [Nat.div_lt_iff_lt_mul h2, ← pow_add]
      have : 5 * k + 5 = 5 * (k + 1) := by ring
      rw [Nat.add_comm 5 (5*k), this]
      omega
    have hle : a >>> (5 * k) ≤ b >>> (5 * k) := by
      rw [Nat.shiftRight_eq_div_pow, Nat.shiftRight_eq_div_pow]
      exact Nat.div_le_div_right (Nat.le_of_lt hab)
    simp only [bitsDigits, List.map_cons, Nat.mod_eq_of_lt had, Nat.mod_eq_of_lt hbd]
    rcases Nat.lt_or_ge (a >>> (5 * k)) (b >>> (5 * k)) with hlt | hge
    · exact pyLt_head _ _
        (b32char_mono _ (by norm_num at had; omega) _ (by norm_num at hbd; omega) hlt)
    · have heq : a >>> (5 * k) = b >>> (5 * k) := Nat.le_antisymm hle hge
      rw [heq]
      simp only [pyLt, lt_irrefl, if_neg (lt_irrefl _), if_pos rfl]
      have hda := Nat.div_add_mod a (2 ^ (5 * k))
      have hdb := Nat.div_add_mod b (2 ^ (5 * k))
      have heq' : a / 2 ^ (5 * k) = b / 2 ^ (5 * k) := by
        rw [Nat.shiftRight_eq_div_pow, Nat.shiftRight_eq_div_pow] at heq
        exact heq
      have hmlt : a % 2 ^ (5 * k) < b % 2 ^ (5 * k) := by
        have := heq' ▸ hda
        omega
      have hblt : b % 2 ^ (5 * k) < 2 ^ (5 * k) := Nat.mod_lt _ h2
      rw [bitsDigits_mod 5 k a, bitsDigits_mod 5 k b]
      exact ih (a % 2 ^ (5 * k)) (b % 2 ^ (5 * k)) hmlt hblt

theorem prefixTail_cons (c : Char) (rest : List Char) :
    prefixTail (c :: rest) =
      if c = '_' then
        (match rest with
         | [] => false
         | d :: rest2 => isLowerAZ d && prefixTail rest2)
      else isLowerAZ c && prefixTail rest := by
  rw [prefixTail.eq_def]

theorem isLowerAZ_range {c : Char} (h : isLowerAZ c = true) : 'a' ≤ c ∧ c ≤ 'z' := by
  rw [isLowerAZ, Bool.and_eq_true, decide_eq_true_eq, decide_eq_true_eq] at h
  exact h

theorem prefixTail_chars : ∀ l : List Char, prefixTail l = true →
    ∀ c ∈ l, c = '_' ∨ ('a' ≤ c ∧ c ≤ 'z') := by
  intro l
  induction l with
  | nil => intro _ c hc; cases hc
  | cons c rest ih =>
    intro h x hx
    by_cases hc : c = '_'
    · subst hc
      rw [prefixTail_cons, if_pos rfl] at h
      cases rest with
      | nil => exact Bool.noConfusion h
      | cons d rest2 =>
        have h' : (isLowerAZ d && prefixTail rest2) = true := h
        rw [Bool.and_eq_true] at h'
        obtain ⟨hd, h2⟩ := h'
        have hdlow := isLowerAZ_range hd
        have hdne : ¬ d = '_' := by
          intro hdu
          rw [hdu] at hdlow
          exact absurd hdlow.1 (by decide)
        have hrest : prefixTail (d :: rest2) = true := by
          rw [prefixTail_cons, if_neg hdne, Bool.and_eq_true]
          exact ⟨hd, h2⟩
        rcases List.mem_cons.mp hx with h | h
        · exact Or.inl h
        · exact ih hrest x h
    · rw [prefixTail_cons, if_neg hc, Bool.and_eq_true] at h
      obtain ⟨hcl, h2⟩ := h
      rcases List.mem_cons.mp hx with h | h
      · exact h ▸ Or.inr (isLowerAZ_range hcl)
      · exact ih h2 x h

theorem prefixPatOk_chars (p : List Char) (h : prefixPatOk p = true) :
    ∀ c ∈ p, c = '_' ∨ ('a' ≤ c ∧ c ≤ 'z') := by
  cases p with
  | nil => cases h
  | cons c rest =>
    rw [prefixPatOk, Bool.and_eq_true] at h
    obtain ⟨hc, ht⟩ := h
    intro x hx
    rcases List.mem_cons.mp hx with h | h
    · exact h ▸ Or.inr (isLowerAZ_range hc)
    · exact prefixTail_chars rest ht x h

/-- Comparing generated identifiers across different prefixes: the first
identifier is smaller whenever its prefix is, regardless of either
payload, because every prefix character is at least `_` while every
payload character is strictly below `_`. -/
theorem pyLt_cross : ∀ p1 p2 u1 u2 : List Char,
    pyLt p1 p2 = true → (∀ c ∈ p2, '_' ≤ c) →
    u1 ≠ [] → (∀ c ∈ u1, c < '_') →
    pyLt (p1 ++ '_' :: u1) (p2 ++ '_' :: u2) = true := by
  intro p1
  induction p1 with
  | nil =>
    intro p2 u1 u2 h12 hp2 hu1 hu1c
    cases p2 with
    | nil => cases h12
    | cons b bs =>
      have hb : '_' ≤ b := hp2 b (List.mem_cons_self _ _)
      simp only [List.nil_append, List.cons_append]
      rcases lt_or_eq_of_le hb with hlt | heq
      · exact pyLt_head _ _ hlt
      · rw [← heq]
        simp only [pyLt, lt_irrefl, if_neg (lt_irrefl _), if_pos rfl]
        obtain ⟨x, xs, rfl⟩ := List.exists_cons_of_ne_nil hu1
        have hx : x < '_' := hu1c x (List.mem_cons_self _ _)
        cases bs with
        | nil => exact pyLt_head _ _ hx
        | cons b' bs' =>
          have hb' : '_' ≤ b' := hp2 b' (List.mem_cons_of_mem _ (List.mem_cons_self _ _))
          exact pyLt_head _ _ (lt_of_lt_of_le hx hb')
  | cons a as ih =>
    intro p2 u1 u2 h12 hp2 hu1 hu1c
    cases p2 with
    | nil => cases h12
    | cons b bs =>
      simp only [pyLt] at h12
      simp only [List.cons_append]
      by_cases hab : a < b
      · exact pyLt_head _ _ hab
      · rw [if_neg hab] at h12
        by_cases haeq : a = b
        · rw [if_pos haeq] at h12
          subst haeq
          simp only [pyLt, lt_irrefl, if_neg (lt_irrefl _), if_pos rfl]
          exact ih bs u1 u2 h12 (fun c hc => hp2 c (List.mem_cons_of_mem _ hc)) hu1 hu1c
        · rw [if_neg haeq] at h12
          cases h12

/-! ## Facts about the characters of generated identifiers -/

theorem b32_lower_class : ∀ i < 32, ulidClassChar (pyLowerChar (b32char i)) = true := by decide

theorem b32_upper_lower : ∀ i < 32, pyUpperChar (pyLowerChar (b32char i)) = b32char i := by
  decide

theorem b32_lt_underscore : ∀ i < 32, b32char i < '_' := by decide

theorem b32_not_space : ∀ i < 32, pyIsSpaceChar (b32char i) = false := by decide

theorem b32_lower_not_space : ∀ i < 32, pyIsSpaceChar (pyLowerChar (b32char i)) = false := by
  decide

theorem b32_lower_keep :
    ∀ i < 32, (pyLowerChar (b32char i) ≠ '-' && pyLowerChar (b32char i) ≠ ' ') = true := by
  decide

theorem not_space_of_range {c : Char} (h : c = '_' ∨ ('a' ≤ c ∧ c ≤ 'z')) :
    pyIsSpaceChar c = false := by
  rcases h with h | h
  · subst h; decide
  · have h1 : (97:Nat) ≤ c.toNat := char_le_toNat.mp h.1
    have h2 : c.toNat ≤ (122:Nat) := char_le_toNat.mp h.2
    rw [← Bool.not_eq_true]
    intro habs
    simp only [pyIsSpaceChar, Bool.or_eq_true, Bool.and_eq_true, decide_eq_true_eq,
      beq_iff_eq] at habs
    omega

theorem lower_fix_of_range {c : Char} (h : c = '_' ∨ ('a' ≤ c ∧ c ≤ 'z')) :
    pyLowerChar c = c := by
  rcases h with h | h
  · subst h; decide
  · have h1 : (97:Nat) ≤ c.toNat := char_le_toNat.mp h.1
    rw [pyLowerChar, if_neg]
    intro habs
    rw [Bool.and_eq_true, decide_eq_true_eq, decide_eq_true_eq] at habs
    have : c.toNat ≤ (90:Nat) := char_le_toNat.mp habs.2
    omega

theorem underscore_le_of_range {c : Char} (h : c = '_' ∨ ('a' ≤ c ∧ c ≤ 'z')) : '_' ≤ c := by
  rcases h with h | h
  · exact h ▸ le_refl _
  · exact le_trans (by decide : '_' ≤ 'a') h.1

theorem dropWhile_id_of_not (p : Char → Bool) (l : List Char)
    (h : ∀ c ∈ l, p c = false) : l.dropWhile p = l := by
  cases l with
  | nil => rfl
  | cons c cs => rw [List.dropWhile_cons, h c (List.mem_cons_self _ _)]; simp

theorem pyStrip_id (l : List Char) (h : ∀ c ∈ l, pyIsSpaceChar c = false) : pyStrip l = l := by
  unfold pyStrip
  rw [dropWhile_id_of_not _ _ h, dropWhile_id_of_not, List.reverse_reverse]
  intro c hc
  exact h c (List.mem_reverse.mp hc)

theorem map_id_of_mem {f : Char → Char} (l : List Char) (h : ∀ c ∈ l, f c = c) :
    l.map f = l := by
  induction l with
  | nil => rfl
  | cons c cs ih =>
    rw [List.map_cons, h c (List.mem_cons_self _ _), ih (fun x hx => h x (List.mem_cons_of_mem _ hx))]

theorem filter_keep_of (l : List Char) (h : ∀ c ∈ l, (c ≠ '-' && c ≠ ' ') = true) :
    l.filter (fun c => c ≠ '-' && c ≠ ' ') = l := by
  induction l with
  | nil => rfl
  | cons c cs ih =>
    rw [List.filter_cons, if_pos (h c (List.mem_cons_self _ _)),
      ih (fun x hx => h x (List.mem_cons_of_mem _ hx))]

theorem getD_append_length (p : List Char) (c : Char) (u : List Char) (d : Char) :
    (p ++ c :: u).getD p.length d = c := by
  induction p with
  | nil => rfl
  | cons a as ih => simpa using ih

/-- `TOON_PATTERN` matches a well-formed `prefix_payload` string and
returns exactly the prefix and the payload. -/
theorem toonMatch_generate (p u : List Char) (hp : prefixPatOk p = true)
    (hu26 : u.length = 26) (huc : u.all ulidClassChar = true) :
    toonMatch (p ++ '_' :: u) = some (p, u) := by
  have hpne : p ≠ [] := by
    intro h
    rw [h] at hp
    exact Bool.noConfusion hp
  have hppos : 0 < p.length := List.length_pos.mpr hpne
  unfold toonMatch
  have hlen : (p ++ '_' :: u).length = p.length + 27 := by
    simp [hu26]
  rw [hlen, if_pos (by omega)]
  have h27 : p.length + 27 - 27 = p.length := by omega
  have h26 : p.length + 27 - 26 = p.length + 1 := by omega
  rw [h27, h26, List.take_left, getD_append_length]
  have hdrop : (p ++ '_' :: u).drop (p.length + 1) = u := by
    have : p ++ '_' :: u = (p ++ ['_']) ++ u := by simp
    rw [this, List.drop_left' (by simp)]
  simp [hdrop, hp, huc]

/-- Parsing a generated identifier recovers the type prefix and the
(48-bit) millisecond timestamp. -/
theorem parse_generate (p : List Char) (t : Nat) (r : List Nat)
    (hp : prefixPatOk p = true) (ht : t < 2 ^ 48)
    (hrl : r.length = 10) (hrb : ∀ b ∈ r, b < 256) :
    ∃ info, TOONGenerator.parse (TOONGenerator.generate p t r) = .ok info ∧
      info.type = p ∧ info.timestamp_ms = t := by
  have hprange := prefixPatOk_chars p hp
  rw [generate_closed p t r ht hrl hrb]
  set W := (t * 2 ^ 80 + valsVal 8 r) * 4 with hW
  have hdig32 : ∀ d ∈ bitsDigits 5 26 W, d < 32 := by
    intro d hd
    have := bitsDigits_lt 5 26 W d hd
    norm_num at this
    exact this
  unfold TOONGenerator.parse
  have hstrip : pyStrip (p ++ '_' :: (bitsDigits 5 26 W).map b32char) =
      p ++ '_' :: (bitsDigits 5 26 W).map b32char := by
    apply pyStrip_id
    intro c hc
    rcases List.mem_append.mp hc with h | h
    · exact not_space_of_range (hprange c h)
    · rcases List.mem_cons.mp h with h | h
      · subst h; decide
      · obtain ⟨i, hi, rfl⟩ := List.mem_map.mp h
        exact b32_not_space i (hdig32 i hi)
  rw [hstrip]
  have hmapsplit : (p ++ '_' :: (bitsDigits 5 26 W).map b32char).map pyLowerChar =
      p ++ '_' :: (bitsDigits 5 26 W).map (fun i => pyLowerChar (b32char i)) := by
    rw [List.map_append, List.map_cons, List.map_map,
      map_id_of_mem p (fun c hc => lower_fix_of_range (hprange c hc))]
    rfl
  rw [hmapsplit]
  have hmatch : toonMatch (p ++ '_' ::
      (bitsDigits 5 26 W).map (fun i => pyLowerChar (b32char i))) =
      some (p, (bitsDigits 5 26 W).map (fun i => pyLowerChar (b32char i))) := by
    apply toonMatch_generate p _ hp (by simp)
    rw [List.all_eq_true]
    intro c hc
    obtain ⟨i, hi, rfl⟩ := List.mem_map.mp hc
    exact b32_lower_class i (hdig32 i hi)
  have hWlt : W < 2 ^ 130 := by
    have hrv : valsVal 8 r < 2 ^ 80 := by
      have := valsVal_lt 8 r hrb
      rw [hrl] at this
      norm_num at this
      exact this
    have h128 : t * 2 ^ 80 + valsVal 8 r < 2 ^ 128 := by
      have : t * 2 ^ 80 + valsVal 8 r < (t + 1) * 2 ^ 80 := by nlinarith
      calc t * 2 ^ 80 + valsVal 8 r < (t + 1) * 2 ^ 80 := this
        _ ≤ 2 ^ 48 * 2 ^ 80 := Nat.mul_le_mul_right _ ht
        _ = 2 ^ 128 := by norm_num
    rw [hW]
    omega
  have hdecode : decode_base32 ((bitsDigits 5 26 W).map (fun i => pyLowerChar (b32char i))) =
      .ok (bitsDigits 8 16 (t * 2 ^ 80 + valsVal 8 r)) := by
    unfold decode_base32
    have hupper : ((bitsDigits 5 26 W).map (fun i => pyLowerChar (b32char i))).map pyUpperChar =
        (bitsDigits 5 26 W).map b32char := by
      rw [List.map_map]
      apply List.map_congr_left
      intro i hi
      exact b32_upper_lower i (hdig32 i hi)
    rw [hupper, filter_keep_of _ (fun c hc => by
      obtain ⟨i, hi, rfl⟩ := List.mem_map.mp hc
      exact b32_keep i (hdig32 i hi))]
    simp only [b32Lookups_map _ hdig32]
    have hdig5 : ∀ d ∈ bitsDigits 5 26 W, d < 2 ^ 5 := by
      intro d hd; exact bitsDigits_lt 5 26 W d hd
    rw [decode_vals_eq _ hdig5]
    congr 1
    rw [bitsDigits_length, valsVal_bitsDigits]
    have hmod : W % 2 ^ (5 * 26) = W := Nat.mod_eq_of_lt (by norm_num; omega)
    rw [hmod]
    norm_num
    rw [hW, Nat.shiftRight_eq_div_pow]
    norm_num
  have htake : (bitsDigits 8 16 (t * 2 ^ 80 + valsVal 8 r)).take 6 = bitsDigits 8 6 t := by
    have hsplit : bitsDigits 8 16 (t * 2 ^ 80 + valsVal 8 r) =
        bitsDigits 8 6 ((t * 2 ^ 80 + valsVal 8 r) >>> (8 * 10)) ++
          bitsDigits 8 10 (t * 2 ^ 80 + valsVal 8 r) :=
      bitsDigits_append 8 6 10 _
    have hshift : (t * 2 ^ 80 + valsVal 8 r) >>> (8 * 10) = t := by
      rw [Nat.shiftRight_eq_div_pow]
      have hrv : valsVal 8 r < 2 ^ 80 := by
        have := valsVal_lt 8 r hrb
        rw [hrl] at this
        norm_num at this
        exact this
      show (t * 2 ^ 80 + valsVal 8 r) / 2 ^ 80 = t
      rw [Nat.mul_comm t, Nat.mul_add_div (Nat.pos_pow_of_pos _ (by norm_num)),
        Nat.div_eq_of_lt hrv, Nat.add_zero]
    rw [hsplit, hshift, List.take_left' (by simp)]
  have hts : valsVal 8 (bitsDigits 8 6 t) = t := by
    rw [valsVal_bitsDigits]
    exact Nat.mod_eq_of_lt (by norm_num; omega)
  simp only [hmatch, hdecode, htake, hts]
  refine ⟨_, rfl, ?_, rfl⟩
  exact map_id_of_mem p (fun c hc => lower_fix_of_range (hprange c hc))

/-- The timestamp argument only enters `generate` through its low 48
bits. -/
theorem generate_mask (p : List Char) (t : Nat) (r : List Nat) :
    TOONGenerator.generate p t r =
      TOONGenerator.generate p (t &&& 0xFFFFFFFFFFFF) r := by
  unfold TOONGenerator.generate
  rw [Nat.and_assoc, Nat.and_self]

theorem generate_lt_time (p : List Char) (t1 t2 : Nat) (r1 r2 : List Nat)
    (h12 : t1 < t2) (h2 : t2 < 2 ^ 48)
    (hr1l : r1.length = 10) (hr1b : ∀ b ∈ r1, b < 256)
    (hr2l : r2.length = 10) (hr2b : ∀ b ∈ r2, b < 256) :
    pyLt (TOONGenerator.generate p t1 r1) (TOONGenerator.generate p t2 r2) = true := by
  rw [generate_closed p t1 r1 (lt_trans h12 h2) hr1l hr1b,
    generate_closed p t2 r2 h2 hr2l hr2b]
  have hsplit : ∀ u : List Char, p ++ '_' :: u = (p ++ ['_']) ++ u := by simp
  rw [hsplit ((bitsDigits 5 26 ((t1 * 2 ^ 80 + valsVal 8 r1) * 4)).map b32char),
    hsplit ((bitsDigits 5 26 ((t2 * 2 ^ 80 + valsVal 8 r2) * 4)).map b32char), pyLt_append]
  have hrv1 : valsVal 8 r1 < 2 ^ 80 := by
    have := valsVal_lt 8 r1 hr1b
    rw [hr1l] at this
    norm_num at this
    exact this
  have hrv2 : valsVal 8 r2 < 2 ^ 80 := by
    have := valsVal_lt 8 r2 hr2b
    rw [hr2l] at this
    norm_num at this
    exact this
  apply pyLt_digits 26
  · have hv : t1 * 2 ^ 80 + valsVal 8 r1 < t2 * 2 ^ 80 + valsVal 8 r2 := by
      have h1 : t1 * 2 ^ 80 + valsVal 8 r1 < (t1 + 1) * 2 ^ 80 := by nlinarith
      have h2' : (t1 + 1) * 2 ^ 80 ≤ t2 * 2 ^ 80 := Nat.mul_le_mul_right _ h12
      omega
    omega
  · have : t2 * 2 ^ 80 + valsVal 8 r2 < 2 ^ 128 := by
      have h1 : t2 * 2 ^ 80 + valsVal 8 r2 < (t2 + 1) * 2 ^ 80 := by nlinarith
      have h2' : (t2 + 1) * 2 ^ 80 ≤ 2 ^ 48 * 2 ^ 80 := Nat.mul_le_mul_right _ h2
      norm_num at h2' ⊢
      omega
    norm_num
    omega

theorem generate_lt_prefix (p1 p2 : List Char) (t1 t2 : Nat) (r1 r2 : List Nat)
    (hp2 : prefixPatOk p2 = true) (hlt : pyLt p1 p2 = true)
    (hr1l : r1.length = 10) (hr1b : ∀ b ∈ r1, b < 256)
    (hr2l : r2.length = 10) (hr2b : ∀ b ∈ r2, b < 256) :
    pyLt (TOONGenerator.generate p1 t1 r1) (TOONGenerator.generate p2 t2 r2) = true := by
  rw [generate_mask p1 t1 r1, generate_mask p2 t2 r2]
  have hmask : ∀ t : Nat, t &&& 0xFFFFFFFFFFFF < 2 ^ 48 := by
    intro t
    have : (0xFFFFFFFFFFFF : Nat) = 2 ^ 48 - 1 := by norm_num
    rw [this, Nat.and_pow_two_sub_one_eq_mod]
    exact Nat.mod_lt _ (by norm_num)
  rw [generate_closed p1 _ r1 (hmask t1) hr1l hr1b,
    generate_closed p2 _ r2 (hmask t2) hr2l hr2b]
  apply pyLt_cross _ _ _ _ hlt
  · intro c hc
    exact underscore_le_of_range (prefixPatOk_chars p2 hp2 c hc)
  · intro h
    have : ((bitsDigits 5 26 (((t1 &&& 0xFFFFFFFFFFFF) * 2 ^ 80 + valsVal 8 r1) * 4)).map
        b32char).length = 26 := by simp
    rw [h] at this
    cases this
  · intro c hc
    obtain ⟨i, hi, rfl⟩ := List.mem_map.mp hc
    have hi32 : i < 32 := by
      have := bitsDigits_lt 5 26 _ i hi
      norm_num at this
      exact this
    exact b32_lt_underscore i hi32

/-! ## Record model (`models/leader.py`, `models/fields.py`, `models/record.py`)

The pydantic models are frozen value objects; construction-time
validation is modelled by `Except`-returning constructors.  Single
character fields whose pydantic type enforces length one (`Subfield.code`,
`DataField.indicator1/2`) are carried as `Char`; free-form `str` fields
(such as `Leader.control_type`) are `List Char`. -/

/-- `RECORD_STATUS_VALUES` from `constants.py`. -/
def RECORD_STATUS_VALUES : List Char := ['a', 'c', 'd', 'n', 'p']

/-- `TYPE_OF_RECORD_VALUES` from `constants.py`. -/
def TYPE_OF_RECORD_VALUES : List Char :=
  ['a', 'c', 'd', 'e', 'f', 'g', 'i', 'j', 'k', 'm', 'o', 'p', 'r', 't']

/-- `BIBLIOGRAPHIC_LEVEL_VALUES` from `constants.py`. -/
def BIBLIOGRAPHIC_LEVEL_VALUES : List Char := ['a', 'b', 'c', 'd', 'i', 'm', 's']

/-- `LEADER_LENGTH` from `constants.py`. -/
def LEADER_LENGTH : Nat := 24

/-- `LeaderValidationError`, carrying the data its messages interpolate. -/
inductive LeaderError where
  | lengthMismatch (expected found : Nat)
  | invalidValue (field : String)
  | intValue
deriving DecidableEq, Repr

structure Leader where
  record_length : Nat
  record_status : Char
  type_of_record : Char
  bibliographic_level : Char
  control_type : List Char
  character_encoding : List Char
  indicator_count : Nat
  subfield_code_count : Nat
  base_address : Nat
  encoding_level : List Char
  descriptive_cataloging : List Char
  multipart_level : List Char
  entry_map : List Char
deriving DecidableEq, Repr

/-- Pydantic construction of a `Leader`: the three `mode="before"`
validators reject a `record_status`, `type_of_record` or
`bibliographic_level` outside its closed value set; the remaining fields
are unconstrained beyond their types (`record_length`, `base_address`,
`indicator_count`, `subfield_code_count` are non-negative integers,
which `Nat` carries). -/
def Leader.construct (record_length : Nat) (record_status type_of_record
    bibliographic_level : Char) (control_type character_encoding : List Char)
    (indicator_count subfield_code_count base_address : Nat)
    (encoding_level descriptive_cataloging multipart_level entry_map : List Char) :
    Except LeaderError Leader :=
  if record_status ∉ RECORD_STATUS_VALUES then .error (.invalidValue "record_status")
  else if type_of_record ∉ TYPE_OF_RECORD_VALUES then .error (.invalidValue "type_of_record")
  else if bibliographic_level ∉ BIBLIOGRAPHIC_LEVEL_VALUES then
    .error (.invalidValue "bibliographic_level")
  else .ok ⟨record_length, record_status, type_of_record, bibliographic_level,
    control_type, character_encoding, indicator_count, subfield_code_count,
    base_address, encoding_level, descriptive_cataloging, multipart_level, entry_map⟩

/-- `Leader.from_string`: the length must be exactly 24 (the error
message carries the expected and the found length), the numeric slices
go through `int(...)`, and the field values go through construction. -/
def Leader.from_string (s : List Char) : Except LeaderError Leader :=
  if s.length ≠ LEADER_LENGTH then .error (.lengthMismatch LEADER_LENGTH s.length)
  else
    match pyInt (s.take 5), pyInt [s.getD 10 ' '], pyInt [s.getD 11 ' '],
        pyInt ((s.drop 12).take 5) with
    | some rl, some ic, some sc, some ba =>
        Leader.construct rl (s.getD 5 ' ') (s.getD 6 ' ') (s.getD 7 ' ')
          [s.getD 8 ' '] [s.getD 9 ' '] ic sc ba
          [s.getD 17 ' '] [s.getD 18 ' '] [s.getD 19 ' '] ((s.drop 20).take 4)
    | _, _, _, _ => .error .intValue

/-- `Leader.__str__`: five-digit zero-padded record length and base
address, plain rendering of the two counters, and the character fields
verbatim. -/
def leaderStr (L : Leader) : List Char :=
  format05 L.record_length ++ [L.record_status, L.type_of_record, L.bibliographic_level] ++
    L.control_type ++ L.character_encoding ++ decChars L.indicator_count ++
    decChars L.subfield_code_count ++ format05 L.base_address ++ L.encoding_level ++
    L.descriptive_cataloging ++ L.multipart_level ++ L.entry_map

structure Subfield where
  code : Char
  data : List Char
deriving DecidableEq, Repr

structure ControlField where
  tag : List Char
  data : List Char
deriving DecidableEq, Repr

structure DataField where
  tag : List Char
  indicator1 : Char
  indicator2 : Char
  subfields : List Subfield
deriving DecidableEq, Repr

structure Record where
  leader : Leader
  control_fields : List ControlField
  data_fields : List DataField
deriving DecidableEq, Repr

/-- Pydantic pattern `^00[1-9]$` on `ControlField.tag`. -/
def controlTagOk (t : List Char) : Bool :=
  match t with
  | ['0', '0', c] => '1' ≤ c && c ≤ '9'
  | _ => false

/-- Pydantic pattern `^(0[1-9][0-9]|[1-9][0-9]\x7b2\x7d)$` on `DataField.tag`. -/
def dataTagOk (t : List Char) : Bool :=
  match t with
  | [a, b, c] =>
      (a = '0' && ('1' ≤ b && b ≤ '9') && pyIsDigit c) ||
      (('1' ≤ a && a ≤ '9') && pyIsDigit b && pyIsDigit c)
  | _ => false

/-! ## KORMARC parser (`parser/kormarc_parser.py`)

Only the text path of `parse` is embedded; the byte path merely decodes
UTF-8 before reaching the same code. -/

inductive ParseError where
  | emptyRecord
  | leaderFailed (e : LeaderError)
  | fieldFailed (tag : List Char)
deriving DecidableEq, Repr

/-- `_parse_data_field_content`: split at the first `|`; leading digits
and spaces before it become up to two indicators (padded with spaces);
the remainder splits on `|` into subfield chunks, each stripped, with
first character as code and the rest as data; with no `|` at all the
whole stripped content becomes one implicit subfield coded `a`. -/
def parseDataFieldContent (content : List Char) : List Char × List Subfield :=
  if '|' ∈ content then
    let indicator_part := content.takeWhile (fun c => c ≠ '|')
    let subfield_part := content.dropWhile (fun c => c ≠ '|')
    let indicators := indicator_part.takeWhile
      (fun c => c ∈ ['0', '1', '2', '3', '4', '5', '6', '7', '8', '9', ' '])
    let indicators := indicators ++ List.replicate (2 - indicators.length) ' '
    let subfields := (subfield_part.splitOn '|').filterMap (fun part =>
      match pyStrip part with
      | [] => none
      | c :: ds => some ⟨c, ds⟩)
    (indicators.take 2, subfields)
  else
    ([' ', ' '], if pyStrip content = [] then [] else [⟨'a', pyStrip content⟩])

/-- The field loop of `KORMARCParser.parse` over the non-leader lines: a
line with fewer than two whitespace-separated parts is skipped; a
digit-only tag of value at most 9 builds a `ControlField` from the
zero-filled tag; any other tag builds a `DataField` from the parsed
content; a field whose pydantic construction fails (tag pattern
violation) aborts the whole parse with an error naming the raw tag. -/
def parseFields : List (List Char) → Except ParseError (List ControlField × List DataField)
  | [] => .ok ([], [])
  | line :: rest =>
    if line.isEmpty then parseFields rest
    else
      match pySplitMax1 line with
      | [tag, content] =>
        if !tag.isEmpty && tag.all pyIsDigit && digitsVal tag ≤ 9 then
          if controlTagOk (pyZfill 3 tag) then
            match parseFields rest with
            | .ok (cfs, dfs) => .ok (⟨pyZfill 3 tag, content⟩ :: cfs, dfs)
            | .error e => .error e
          else .error (.fieldFailed tag)
        else
          let parsed := parseDataFieldContent content
          if dataTagOk (pyZfill 3 tag) then
            match parseFields rest with
            | .ok (cfs, dfs) =>
                .ok (cfs, ⟨pyZfill 3 tag, parsed.1.getD 0 ' ', parsed.1.getD 1 ' ',
                  parsed.2⟩ :: dfs)
            | .error e => .error e
          else .error (.fieldFailed tag)
      | _ => parseFields rest

/-- The non-empty stripped lines of the input document, as
`[line.strip() for line in data.strip().splitlines() if line.strip()]`
produces them. -/
def parseLinesOf (input : List Char) : List (List Char) :=
  ((pySplitLines (pyStrip input)).map pyStrip).filter (fun l => !l.isEmpty)

/-- `KORMARCParser.parse` on text input: the first non-empty line is the
leader, the rest are fields. -/
def KORMARCParser.parse (input : List Char) : Except ParseError Record :=
  match parseLinesOf input with
  | [] => .error .emptyRecord
  | leader_line :: rest =>
    match Leader.from_string leader_line with
    | .error e => .error (.leaderFailed e)
    | .ok leader =>
      match parseFields rest with
      | .error e => .error e
      | .ok (cfs, dfs) => .ok ⟨leader, cfs, dfs⟩

/-! ## Validation pipeline (`validators/`) -/

inductive Severity where
  | ERROR
  | WARNING
deriving DecidableEq, Repr

structure VError where
  severity : Severity
  field_tag : Option (List Char)
  message : String
  suggestion : Option String
deriving DecidableEq, Repr

structure VWarning where
  field_tag : Option (List Char)
  message : String
  suggestion : Option String
deriving DecidableEq, Repr

structure ValidationResult where
  tier : Nat
  validator_name : String
  passed : Bool
  errors : List VError
  warnings : List VWarning
deriving DecidableEq, Repr

def tag001 : List Char := ['0', '0', '1']
def tag005 : List Char := ['0', '0', '5']
def tag040 : List Char := ['0', '4', '0']
def tag100 : List Char := ['1', '0', '0']
def tag245 : List Char := ['2', '4', '5']
def tag260 : List Char := ['2', '6', '0']

/-- `FIELD_005_PATTERN = re.compile(r"^\d\x7b14\x7d\.\d$")` without the
optional trailing newline that `$` tolerates. -/
def matches005core (l : List Char) : Bool :=
  l.length == 16 && (l.take 14).all pyIsDigit && l.getD 14 ' ' == '.' &&
    pyIsDigit (l.getD 15 ' ')

/-- `FIELD_005_PATTERN.match(data)` succeeds: `re.match` anchors at the
start, and the `$` anchor also matches just before one final newline, so
a single trailing `\n` after the final digit is tolerated. -/
def matches005 (data : List Char) : Bool :=
  matches005core data ||
    (data.getLast? == some '\n' && matches005core data.dropLast)

/-- `StructureValidator.validate_leader`: the Leader was already
validated at construction, so this always passes with no findings. -/
def structureValidateLeader (_ : Leader) : ValidationResult :=
  ⟨1, "StructureValidator", true, [], []⟩

/-- `StructureValidator.validate_control_fields`: tag 001 must exist
(error), and the first tag-005 field, when present, must match
`FIELD_005_PATTERN` (error). -/
def structureValidateControlFields (record : Record) : ValidationResult :=
  let errors001 :=
    if record.control_fields.any (fun cf => cf.tag == tag001) then []
    else [(⟨.ERROR, some tag001, "001 필드는 필수입니다",
      some "제어번호(001) 필드를 추가하세요"⟩ : VError)]
  let errors005 :=
    match record.control_fields.find? (fun cf => cf.tag == tag005) with
    | some cf =>
      if matches005 cf.data then []
      else [(⟨.ERROR, some tag005, "005 필드 형식 오류: YYYYMMDDHHmmss.f 형식이어야 합니다",
        some ("현재값: " ++ String.mk cf.data ++ ", 예시: 20260111120000.0")⟩ : VError)]
    | none => []
  let errors := errors001 ++ errors005
  ⟨1, "StructureValidator", errors.isEmpty, errors, []⟩

/-- `StructureValidator.validate_record`: leader findings then control
field findings, passing iff no error was collected. -/
def structureValidateRecord (record : Record) : ValidationResult :=
  let lr := structureValidateLeader record.leader
  let cr := structureValidateControlFields record
  let errors := lr.errors ++ cr.errors
  let warnings := lr.warnings ++ cr.warnings
  ⟨1, "StructureValidator", errors.isEmpty, errors, warnings⟩

def hasControlTag (record : Record) (t : List Char) : Bool :=
  record.control_fields.any (fun cf => cf.tag == t)

def hasDataTag (record : Record) (t : List Char) : Bool :=
  record.data_fields.any (fun df => df.tag == t)

def missingRequired (t : List Char) (description : String) : VError :=
  ⟨.ERROR, some t,
    "필수 필드 누락: " ++ description ++ "(" ++ String.mk t ++ ") 필드가 없습니다",
    some (String.mk t ++ " 필드를 추가하세요")⟩

/-- `SemanticValidator.validate_required_fields`: `REQUIRED_FIELDS` in
insertion order (001 checked among control fields, 040/245/260 among
data fields), then the conditional warning for tag 100 on records whose
`type_of_record` is `a`. -/
def semanticValidateRequired (record : Record) : ValidationResult :=
  let errors :=
    (if hasControlTag record tag001 then [] else [missingRequired tag001 "제어번호"]) ++
    (if hasDataTag record tag040 then [] else [missingRequired tag040 "목록작성기관"]) ++
    (if hasDataTag record tag245 then [] else [missingRequired tag245 "표제"]) ++
    (if hasDataTag record tag260 then [] else [missingRequired tag260 "발행사항"])
  let warnings :=
    if record.leader.type_of_record = 'a' && !hasDataTag record tag100 then
      [(⟨some tag100, "권장 필드 누락: 도서 레코드에는 저자명(100) 필드가 권장됩니다",
        some "100 필드를 추가하는 것을 고려하세요"⟩ : VWarning)]
    else []
  ⟨2, "SemanticValidator", errors.isEmpty, errors, warnings⟩

/-- `SemanticValidator.validate_field_relationships`: the first tag-260
field, when present, must carry a subfield coded `c`; a tag-100 field
requires a tag-245 field. -/
def semanticValidateRelationships (record : Record) : ValidationResult :=
  let errors260 :=
    match record.data_fields.find? (fun df => df.tag == tag260) with
    | some df =>
      if df.subfields.any (fun sf => sf.code == 'c') then []
      else [(⟨.ERROR, some tag260, "발행사항(260) 필드에는 발행년($c)이 필수입니다",
        some "260 필드에 $c 서브필드를 추가하세요"⟩ : VError)]
    | none => []
  let errors100 :=
    if hasDataTag record tag100 && !hasDataTag record tag245 then
      [(⟨.ERROR, some tag100, "저자(100) 필드가 있으면 표제(245) 필드도 필수입니다",
        some "245 필드를 추가하세요"⟩ : VError)]
    else []
  let errors := errors260 ++ errors100
  ⟨2, "SemanticValidator", errors.isEmpty, errors, []⟩

/-- `SemanticValidator.validate_record`. -/
def semanticValidateRecord (record : Record) : ValidationResult :=
  let rr := semanticValidateRequired record
  let fr := semanticValidateRelationships record
  let errors := rr.errors ++ fr.errors
  let warnings := rr.warnings ++ fr.warnings
  ⟨2, "SemanticValidator", errors.isEmpty, errors, warnings⟩

/-- Keys of `NOWON_LIBRARY_CODES`. -/
def NOWON_LIBRARY_CODES : List (List Char) :=
  [['2', '1', '1', '0', '3', '2'], ['2', '1', '1', '0', '3', '3'],
   ['2', '1', '1', '0', '3', '4']]

def missing040Subfield (code : Char) : VError :=
  ⟨.ERROR, some tag040,
    "040 필드에 서브필드 $" ++ String.mk [code] ++ "가 필요합니다",
    some ("서브필드 $" ++ String.mk [code] ++ "를 추가하세요")⟩

/-- `NowonValidator.validate_040_field`: the 040 field is required
(error, and validation stops there); its subfields must include codes
`a`, `c`, `d` (one error per missing code) and a subfield-`a` value
outside the Nowon institution codes is a warning. -/
def nowonValidate040 (record : Record) : ValidationResult :=
  match record.data_fields.find? (fun df => df.tag == tag040) with
  | none =>
    ⟨3, "NowonValidator", false,
      [⟨.ERROR, some tag040, "040 필드(목록작성기관)는 필수입니다",
        some "040 필드를 추가하세요"⟩], []⟩
  | some field_040 =>
    let codes := field_040.subfields.map (fun sf => sf.code)
    let errors := (['a', 'c', 'd'].filter (fun rc => !codes.contains rc)).map
      missing040Subfield
    let warnings :=
      match field_040.subfields.find? (fun sf => sf.code == 'a') with
      | some sa =>
        if NOWON_LIBRARY_CODES.contains sa.data then []
        else [(⟨some tag040, "노원구 도서관 기관코드가 아닙니다: " ++ String.mk sa.data,
          some "노원구 기관코드 사용을 권장합니다: 211032, 211033, 211034"⟩ : VWarning)]
      | none => []
    ⟨3, "NowonValidator", errors.isEmpty, errors, warnings⟩

/-- `NowonValidator.validate_record`. -/
def nowonValidateRecord (record : Record) : ValidationResult :=
  let r040 := nowonValidate040 record
  ⟨3, "NowonValidator", r040.errors.isEmpty, r040.errors, r040.warnings⟩

/-! ## Batch report (`validators/batch_validator.py`)

`generate_report` iterates the per-record lists of `ValidationResult`s
(the TOON-id keys play no role in the aggregation).  The
`errors_by_tier`/`warnings_by_tier` dicts are keyed `1`, `2`, `3` only;
indexing them with any other tier raises `KeyError`, modelled as
`none`.  The floating-point `pass_rate` entry is not modelled. -/

structure TierCounts where
  t1 : Nat
  t2 : Nat
  t3 : Nat
deriving DecidableEq, Repr

def bumpTier (tc : TierCounts) (tier k : Nat) : Option TierCounts :=
  match tier with
  | 1 => some { tc with t1 := tc.t1 + k }
  | 2 => some { tc with t2 := tc.t2 + k }
  | 3 => some { tc with t3 := tc.t3 + k }
  | _ => none

structure Report where
  total_records : Nat
  passed_records : Nat
  failed_records : Nat
  errors_by_tier : TierCounts
  warnings_by_tier : TierCounts
deriving DecidableEq, Repr

/-- The inner loop of `generate_report` over one record's results. -/
def reportRecord : List ValidationResult → Bool → TierCounts → TierCounts →
    Option (Bool × TierCounts × TierCounts)
  | [], passed, ebt, wbt => some (passed, ebt, wbt)
  | r :: rest, passed, ebt, wbt =>
    match (if !r.passed then (bumpTier ebt r.tier r.errors.length).map (fun e => (false, e))
           else some (passed, ebt)) with
    | none => none
    | some (passed, ebt) =>
      match bumpTier wbt r.tier r.warnings.length with
      | none => none
      | some wbt => reportRecord rest passed ebt wbt

/-- The outer loop of `generate_report`. -/
def reportGo : List (List ValidationResult) → Nat → Nat → TierCounts → TierCounts →
    Option (Nat × Nat × TierCounts × TierCounts)
  | [], pc, fc, ebt, wbt => some (pc, fc, ebt, wbt)
  | rs :: rest, pc, fc, ebt, wbt =>
    match reportRecord rs true ebt wbt with
    | none => none
    | some (passed, ebt, wbt) =>
      if passed then reportGo rest (pc + 1) fc ebt wbt
      else reportGo rest pc (fc + 1) ebt wbt

/-- `BatchValidator.generate_report`. -/
def generateReport (results : List (List ValidationResult)) : Option Report :=
  (reportGo results 0 0 ⟨0, 0, 0⟩ ⟨0, 0, 0⟩).map
    (fun out => ⟨results.length, out.1, out.2.1, out.2.2.1, out.2.2.2⟩)

/-! ## Support for the claim theorems -/

theorem b32_class : ∀ i < 32, ulidClassChar (b32char i) = true := by decide

theorem find?_eq_head?_filter {α : Type} (p : α → Bool) (l : List α) :
    l.find? p = (l.filter p).head? := by
  induction l with
  | nil => rfl
  | cons a l ih =>
    cases h : p a
    · rw [List.find?_cons_of_neg _ (by simp [h]), List.filter_cons_of_neg (by simp [h]), ih]
    · rw [List.find?_cons_of_pos _ h, List.filter_cons_of_pos h, List.head?_cons]

theorem dropWhile_length_le (p : Char → Bool) (l : List Char) :
    (l.dropWhile p).length ≤ l.length := by
  induction l with
  | nil => simp
  | cons a l ih =>
    rw [List.dropWhile_cons]
    by_cases h : p a
    · simp only [h, if_true]
      exact le_trans ih (by simp)
    · simp [h]

theorem pyStrip_length_le (l : List Char) : (pyStrip l).length ≤ l.length := by
  unfold pyStrip
  calc ((l.dropWhile pyIsSpaceChar).reverse.dropWhile pyIsSpaceChar).reverse.length
      = ((l.dropWhile pyIsSpaceChar).reverse.dropWhile pyIsSpaceChar).length := by
        rw [List.length_reverse]
    _ ≤ (l.dropWhile pyIsSpaceChar).reverse.length := dropWhile_length_le _ _
    _ = (l.dropWhile pyIsSpaceChar).length := by rw [List.length_reverse]
    _ ≤ l.length := dropWhile_length_le _ _

/-- The scenario document of the specification. -/
def scenarioDoc : List Char :=
  "00714cam  2200205 a 4500\n001 1234567890\n245 10|aTitle|bSubtitle\n260  |aCity|bPublisher|c2020\n".toList

/-- The record that `KORMARCParser.parse` produces for `scenarioDoc`. -/
def scenarioRecord : Record :=
  ⟨⟨714, 'c', 'a', 'm', [' '], [' '], 2, 2, 205, [' '], ['a'], [' '], "4500".toList⟩,
   [⟨tag001, "1234567890".toList⟩],
   [⟨tag245, '1', '0', [⟨'a', "Title".toList⟩, ⟨'b', "Subtitle".toList⟩]⟩,
    ⟨tag260, ' ', ' ',
      [⟨'a', "City".toList⟩, ⟨'b', "Publisher".toList⟩, ⟨'c', "2020".toList⟩]⟩]⟩

/-- A record carrying two tag-005 control fields: a conforming first one
and a malformed second one. -/
def doubled005Record : Record :=
  ⟨⟨714, 'c', 'a', 'm', [' '], [' '], 2, 2, 205, [' '], ['a'], [' '], "4500".toList⟩,
   [⟨tag001, "1234567890".toList⟩,
    ⟨tag005, "20260111120000.0".toList⟩,
    ⟨tag005, "bad".toList⟩],
   []⟩

/-! ## Claim theorems -/

/-- C4: for every byte string `b`, `decode_base32 (encode_base32 b)`
returns `b`: the trailing zero padding bits added by encode are
discarded by decode because fewer than 8 leftover bits never form a
byte. -/
theorem C4_base32_roundtrip (b : List Nat) (hb : ∀ x ∈ b, x < 256) :
    decode_base32 (encode_base32 b) = .ok b :=
  decode_encode_roundtrip b hb

/-- Witness for C4 at the docstring example bytes. -/
theorem C4_base32_roundtrip_witness :
    decode_base32 (encode_base32 [0x01, 0x23, 0x45, 0x67, 0x89, 0xAB]) =
      .ok [0x01, 0x23, 0x45, 0x67, 0x89, 0xAB] :=
  C4_base32_roundtrip [0x01, 0x23, 0x45, 0x67, 0x89, 0xAB] (by decide)

/-- C9: every 16-byte input encodes to exactly 26 Base32 symbols, so the
`ulid[:26]` truncation inside `generate` discards nothing, and the
payload matches the 26-symbol character class of the parse pattern. -/
theorem C9_encode_length_26 (data : List Nat) (hlen : data.length = 16)
    (hd : ∀ x ∈ data, x < 256) :
    (encode_base32 data).length = 26 ∧
    ((encode_base32 data).map pyUpperChar).take 26 = (encode_base32 data).map pyUpperChar ∧
    (encode_base32 data).all ulidClassChar = true := by
  rw [encode_base32_16 data hd hlen]
  have hds : ∀ d ∈ bitsDigits 5 26 (valsVal 8 data * 4), d < 32 := by
    intro d hdm
    have := bitsDigits_lt 5 26 _ d hdm
    norm_num at this
    exact this
  have htake : ∀ m : List Char, m.length = 26 → m.take 26 = m := by
    intro m hm
    rw [← hm, List.take_length]
  refine ⟨by simp, ?_, ?_⟩
  · exact htake _ (by simp)
  · rw [List.all_eq_true]
    intro c hc
    obtain ⟨i, hi, rfl⟩ := List.mem_map.mp hc
    exact b32_class i (hds i hi)

/-- Witness for C9 on a concrete 16-byte input. -/
theorem C9_encode_length_26_witness :
    (encode_base32 [0, 1, 2, 3, 4, 5, 6, 7, 8, 9, 10, 11, 12, 13, 14, 255]).length = 26 ∧
    ((encode_base32 [0, 1, 2, 3, 4, 5, 6, 7, 8, 9, 10, 11, 12, 13, 14, 255]).map
      pyUpperChar).take 26 =
      (encode_base32 [0, 1, 2, 3, 4, 5, 6, 7, 8, 9, 10, 11, 12, 13, 14, 255]).map pyUpperChar ∧
    (encode_base32 [0, 1, 2, 3, 4, 5, 6, 7, 8, 9, 10, 11, 12, 13, 14, 255]).all
      ulidClassChar = true :=
  C9_encode_length_26 [0, 1, 2, 3, 4, 5, 6, 7, 8, 9, 10, 11, 12, 13, 14, 255]
    (by decide) (by decide)

/-- C10: a non-leader line consisting of exactly one
whitespace-delimited token — a well-formed field tag with no content
included — is skipped silently by the field loop of
`KORMARCParser.parse`: it contributes no field and raises no error. -/
theorem C10_single_token_line_skipped (pre post : List (List Char)) (line : List Char)
    (h : (pySplitMax1 line).length = 1) :
    parseFields (pre ++ line :: post) = parseFields (pre ++ post) := by
  induction pre with
  | nil =>
    obtain ⟨tok, htok⟩ := List.length_eq_one.mp h
    have hne : ¬ line.isEmpty := by
      intro habs
      rw [List.isEmpty_iff] at habs
      rw [habs] at htok
      exact List.noConfusion (htok ▸ rfl : pySplitMax1 [] = [tok])
    simp only [List.nil_append, parseFields, Bool.not_eq_true] at *
    rw [if_neg (by simpa using hne), htok]
  | cons l pre ih =>
    simp only [List.cons_append, parseFields, List.append_eq]
    rw [ih]

/-- Witness for C10: a well-formed tag with no content after it. -/
theorem C10_single_token_line_skipped_witness :
    (pySplitMax1 "245".toList).length = 1 ∧
    parseFields ([] ++ "245".toList :: []) = parseFields ([] ++ []) :=
  ⟨by decide, C10_single_token_line_skipped [] [] "245".toList (by decide)⟩

/-- C3: parsing a generated identifier succeeds and returns the
generating timestamp and type prefix.  The timestamp hypothesis keeps
`timestamp_ms / 1000` within the range where
`datetime.fromtimestamp` (the `created_at` field, not modelled here) is
defined, year 9999 at most; beyond it `parse` would raise while
computing `created_at`.  In particular every such timestamp fits in the
48 bits `generate` keeps. -/
theorem C3_toon_roundtrip (p : List Char) (ts : Nat) (r : List Nat)
    (hp : prefixPatOk p = true) (hts : ts ≤ 253402300799999)
    (hrl : r.length = 10) (hrb : ∀ b ∈ r, b < 256) :
    ∃ info, TOONGenerator.parse (TOONGenerator.generate p ts r) = .ok info ∧
      info.timestamp_ms = ts ∧ info.type = p := by
  have ht : ts < 2 ^ 48 := by
    have : (253402300799999 : Nat) < 2 ^ 48 := by norm_num
    omega
  obtain ⟨info, h1, h2, h3⟩ := parse_generate p ts r hp ht hrl hrb
  exact ⟨info, h1, h3, h2⟩

/-- Witness for C3 on a concrete prefix, timestamp and payload. -/
theorem C3_toon_roundtrip_witness :
    ∃ info, TOONGenerator.parse (TOONGenerator.generate "kormarc_book".toList 1704067200000
      [12, 34, 56, 78, 90, 12, 34, 56, 78, 90]) = .ok info ∧
      info.timestamp_ms = 1704067200000 ∧ info.type = "kormarc_book".toList :=
  C3_toon_roundtrip "kormarc_book".toList 1704067200000
    [12, 34, 56, 78, 90, 12, 34, 56, 78, 90] (by decide) (by decide) (by decide) (by decide)

/-- C2: identifiers generated with the same type prefix order strictly
by timestamp under Python string comparison; across different type
prefixes the comparison is decided by the prefixes alone, with the
timestamps playing no role. -/
theorem C2_toon_ordering :
    (∀ (p : List Char) (t1 t2 : Nat) (r1 r2 : List Nat),
      t1 < t2 → t2 < 2 ^ 48 → r1.length = 10 → (∀ b ∈ r1, b < 256) →
      r2.length = 10 → (∀ b ∈ r2, b < 256) →
      pyLt (TOONGenerator.generate p t1 r1) (TOONGenerator.generate p t2 r2) = true) ∧
    (∀ (p1 p2 : List Char) (t1 t2 : Nat) (r1 r2 : List Nat),
      prefixPatOk p1 = true → prefixPatOk p2 = true → pyLt p1 p2 = true →
      r1.length = 10 → (∀ b ∈ r1, b < 256) → r2.length = 10 → (∀ b ∈ r2, b < 256) →
      pyLt (TOONGenerator.generate p1 t1 r1) (TOONGenerator.generate p2 t2 r2) = true) :=
  ⟨fun p t1 t2 r1 r2 h12 h2 a b c d => generate_lt_time p t1 t2 r1 r2 h12 h2 a b c d,
   fun p1 p2 t1 t2 r1 r2 _ hp2 hlt a b c d =>
     generate_lt_prefix p1 p2 t1 t2 r1 r2 hp2 hlt a b c d⟩

/-- Witness for C2: same prefix at consecutive timestamps, and a later
timestamp on a lexicographically smaller prefix still compares below. -/
theorem C2_toon_ordering_witness :
    pyLt (TOONGenerator.generate "kormarc_book".toList 1000 [0, 1, 2, 3, 4, 5, 6, 7, 8, 9])
      (TOONGenerator.generate "kormarc_book".toList 1001 [9, 8, 7, 6, 5, 4, 3, 2, 1, 0]) =
      true ∧
    pyLt (TOONGenerator.generate "kormarc_academic".toList 99999
        [0, 1, 2, 3, 4, 5, 6, 7, 8, 9])
      (TOONGenerator.generate "kormarc_book".toList 3 [9, 8, 7, 6, 5, 4, 3, 2, 1, 0]) =
      true :=
  ⟨C2_toon_ordering.1 "kormarc_book".toList 1000 1001 _ _ (by decide) (by decide)
      (by decide) (by decide) (by decide) (by decide),
   C2_toon_ordering.2 "kormarc_academic".toList "kormarc_book".toList 99999 3 _ _
      (by decide) (by decide) (by decide) (by decide) (by decide) (by decide) (by decide)⟩

/-- C1 (counterexample to the claim as frozen): on the scenario document
the Tier-2 semantic validator does not return `passed = true` with an
empty error list — the always-required tag 040 is absent. -/
theorem C1_scenario_counterexample :
    ∃ r, KORMARCParser.parse scenarioDoc = .ok r ∧
      (semanticValidateRecord r).passed = false ∧
      (semanticValidateRecord r).errors ≠ [] :=
  ⟨scenarioRecord, by decide, by decide, by decide⟩

/-- C1 (amended): parsing the scenario document yields a record with
`record_length = 714`, exactly the one control field `(001,
"1234567890")` and exactly two data fields; Tier 2 then returns
`passed = false` with exactly one error, the missing always-required
tag 040, and Tier 3 returns `passed = false` as well. -/
theorem C1_scenario :
    KORMARCParser.parse scenarioDoc = .ok scenarioRecord ∧
    scenarioRecord.leader.record_length = 714 ∧
    scenarioRecord.control_fields = [⟨tag001, "1234567890".toList⟩] ∧
    scenarioRecord.data_fields.length = 2 ∧
    (semanticValidateRecord scenarioRecord).passed = false ∧
    (semanticValidateRecord scenarioRecord).errors.map (fun e => e.field_tag) =
      [some tag040] ∧
    (nowonValidateRecord scenarioRecord).passed = false := by
  decide

/-- C6 (counterexample to the claim as frozen): a record whose first
tag-005 control field matches the timestamp pattern but whose second
one does not passes Tier 1 with no errors, although a non-matching
tag-005 control field exists — the validator only inspects the first
tag-005 field. -/
theorem C6_structure_counterexample :
    (structureValidateRecord doubled005Record).passed = true ∧
    (structureValidateRecord doubled005Record).errors = [] ∧
    (∃ cf ∈ doubled005Record.control_fields,
      cf.tag = tag005 ∧ matches005 cf.data = false) := by
  refine ⟨by decide, by decide, ⟨⟨tag005, "bad".toList⟩, by decide, by decide, by decide⟩⟩

/-- C6 (amended): Tier 1 never emits warnings; it reports an error for
tag 001 iff no control field with tag 001 exists; it reports an error
for tag 005 iff the *first* control field with tag 005 exists and its
data fails `FIELD_005_PATTERN` (later tag-005 fields are not
inspected); and it passes iff neither condition holds. -/
theorem C6_structure_validation (r : Record) :
    (structureValidateRecord r).warnings = [] ∧
    ((∃ e ∈ (structureValidateRecord r).errors, e.field_tag = some tag001) ↔
      ¬ ∃ cf ∈ r.control_fields, cf.tag = tag001) ∧
    ((∃ e ∈ (structureValidateRecord r).errors, e.field_tag = some tag005) ↔
      ∃ cf, r.control_fields.find? (fun c => c.tag == tag005) = some cf ∧
        matches005 cf.data = false) ∧
    ((structureValidateRecord r).passed = true ↔
      ((∃ cf ∈ r.control_fields, cf.tag = tag001) ∧
        ¬ ∃ cf, r.control_fields.find? (fun c => c.tag == tag005) = some cf ∧
          matches005 cf.data = false)) := by
  have hE1 : (r.control_fields.any (fun cf => cf.tag == tag001) = true) ↔
      ∃ cf ∈ r.control_fields, cf.tag = tag001 := by
    rw [List.any_eq_true]
    constructor
    · rintro ⟨cf, hmm, he⟩
      exact ⟨cf, hmm, by simpa using he⟩
    · rintro ⟨cf, hmm, he⟩
      exact ⟨cf, hmm, by simpa using he⟩
  unfold structureValidateRecord structureValidateControlFields structureValidateLeader
  by_cases h1 : r.control_fields.any (fun cf => cf.tag == tag001) = true
  · have hyes := hE1.mp h1
    rcases hfind : r.control_fields.find? (fun c => c.tag == tag005) with _ | cf
    · have hgood : ¬ ∃ cf, (none : Option ControlField) = some cf ∧
          matches005 cf.data = false := by
        rintro ⟨cf', hcf', _⟩
        cases hcf'
      simp [h1, hfind, hyes, hgood]
    · by_cases hm : matches005 cf.data = true
      · have hgood : ¬ ∃ cf', some cf = some cf' ∧ matches005 cf'.data = false := by
          rintro ⟨cf', hcf', hbad⟩
          cases hcf'
          rw [hm] at hbad
          cases hbad
        simp [h1, hfind, hm, hyes, hgood]
      · rw [Bool.not_eq_true] at hm
        have hbad : ∃ cf', some cf = some cf' ∧ matches005 cf'.data = false :=
          ⟨cf, rfl, hm⟩
        simp [h1, hfind, hm, hyes, hbad] <;> decide
  · rw [Bool.not_eq_true] at h1
    have hno : ¬ ∃ cf ∈ r.control_fields, cf.tag = tag001 := by
      rw [← hE1]
      simp [h1]
    rcases hfind : r.control_fields.find? (fun c => c.tag == tag005) with _ | cf
    · have hgood : ¬ ∃ cf, (none : Option ControlField) = some cf ∧
          matches005 cf.data = false := by
        rintro ⟨cf', hcf', _⟩
        cases hcf'
      simp [h1, hfind, hno, hgood] <;> decide
    · by_cases hm : matches005 cf.data = true
      · have hgood : ¬ ∃ cf', some cf = some cf' ∧ matches005 cf'.data = false := by
          rintro ⟨cf', hcf', hbad⟩
          cases hcf'
          rw [hm] at hbad
          cases hbad
        simp [h1, hfind, hm, hno, hgood] <;> decide
      · rw [Bool.not_eq_true] at hm
        have hbad : ∃ cf', some cf = some cf' ∧ matches005 cf'.data = false :=
          ⟨cf, rfl, hm⟩
        simp [h1, hfind, hm, hno, hbad]

/-! ## C7: batch report pass/fail counting -/

/-- A `ValidationResult` whose `tier` indexes the report dicts without a
`KeyError`. -/
def tierOk (r : ValidationResult) : Bool :=
  r.tier == 1 || r.tier == 2 || r.tier == 3

theorem bumpTier_ok (tc : TierCounts) (tier k : Nat)
    (h : (tier == 1 || tier == 2 || tier == 3) = true) :
    ∃ tc2, bumpTier tc tier k = some tc2 := by
  simp only [Bool.or_eq_true, beq_iff_eq] at h
  rcases h with (h | h) | h <;> subst h <;> exact ⟨_, rfl⟩

theorem reportRecord_eq (rs : List ValidationResult) :
    ∀ (passed : Bool) (ebt wbt : TierCounts), rs.all tierOk = true →
    ∃ e w, reportRecord rs passed ebt wbt =
      some (passed && rs.all (fun r => r.passed), e, w) := by
  induction rs with
  | nil =>
    intro passed ebt wbt _
    exact ⟨ebt, wbt, by simp [reportRecord]⟩
  | cons r rest ih =>
    intro passed ebt wbt h
    rw [List.all_cons, Bool.and_eq_true] at h
    obtain ⟨hr, hrest⟩ := h
    unfold tierOk at hr
    cases hp : r.passed with
    | true =>
      obtain ⟨wbt2, hwbt⟩ := bumpTier_ok wbt r.tier r.warnings.length hr
      obtain ⟨e, w, hrec⟩ := ih passed ebt wbt2 hrest
      exact ⟨e, w, by simp [reportRecord, hp, hwbt, hrec]⟩
    | false =>
      obtain ⟨ebt2, hebt⟩ := bumpTier_ok ebt r.tier r.errors.length hr
      obtain ⟨wbt2, hwbt⟩ := bumpTier_ok wbt r.tier r.warnings.length hr
      obtain ⟨e, w, hrec⟩ := ih false ebt2 wbt2 hrest
      exact ⟨e, w, by simp [reportRecord, hp, hebt, hwbt, hrec]⟩

theorem reportGo_eq (results : List (List ValidationResult)) :
    ∀ (pc fc : Nat) (ebt wbt : TierCounts),
    results.all (fun rs => rs.all tierOk) = true →
    ∃ e w, reportGo results pc fc ebt wbt =
      some (pc + (results.filter (fun rs => rs.all (fun r => r.passed))).length,
            fc + (results.filter (fun rs => !rs.all (fun r => r.passed))).length, e, w) := by
  induction results with
  | nil =>
    intro pc fc ebt wbt _
    exact ⟨ebt, wbt, by simp [reportGo]⟩
  | cons rs rest ih =>
    intro pc fc ebt wbt h
    rw [List.all_cons, Bool.and_eq_true] at h
    obtain ⟨hrs, hrest⟩ := h
    obtain ⟨ebt2, wbt2, hrec⟩ := reportRecord_eq rs true ebt wbt hrs
    rw [Bool.true_and] at hrec
    cases hall : rs.all (fun r => r.passed) with
    | true =>
      rw [hall] at hrec
      obtain ⟨e, w, hgo⟩ := ih (pc + 1) fc ebt2 wbt2 hrest
      have h1 : pc + 1 + (rest.filter (fun rs => rs.all (fun r => r.passed))).length =
          pc + ((rest.filter (fun rs => rs.all (fun r => r.passed))).length + 1) := by omega
      rw [h1] at hgo
      exact ⟨e, w, by simp [reportGo, hrec, hall, hgo, List.filter_cons]⟩
    | false =>
      rw [hall] at hrec
      obtain ⟨e, w, hgo⟩ := ih pc (fc + 1) ebt2 wbt2 hrest
      have h1 : fc + 1 + (rest.filter (fun rs => !rs.all (fun r => r.passed))).length =
          fc + ((rest.filter (fun rs => !rs.all (fun r => r.passed))).length + 1) := by omega
      rw [h1] at hgo
      exact ⟨e, w, by simp [reportGo, hrec, hall, hgo, List.filter_cons]⟩

/-- **C7.**  For every list of per-record `ValidationResult` lists (the
TOON-id keys of the Python dict play no role), `generate_report` counts a
record as passed iff every `ValidationResult` in its list has
`passed = true`, and as failed otherwise; warnings never enter this
decision.  The hypothesis restricts every result's `tier` to 1, 2 or 3,
since any other tier makes the dict lookups raise `KeyError`. -/
theorem C7_generate_report (results : List (List ValidationResult))
    (h : results.all (fun rs => rs.all tierOk) = true) :
    ∃ rep, generateReport results = some rep ∧
      rep.total_records = results.length ∧
      rep.passed_records = (results.filter (fun rs => rs.all (fun r => r.passed))).length ∧
      rep.failed_records = (results.filter (fun rs => !rs.all (fun r => r.passed))).length := by
  obtain ⟨e, w, hgo⟩ := reportGo_eq results 0 0 ⟨0, 0, 0⟩ ⟨0, 0, 0⟩ h
  refine ⟨⟨results.length,
    (results.filter (fun rs => rs.all (fun r => r.passed))).length,
    (results.filter (fun rs => !rs.all (fun r => r.passed))).length, e, w⟩,
    ?_, rfl, rfl, rfl⟩
  simp [generateReport, hgo]

/-- Two records: one passing all tiers with a Tier-3 warning, one failing
Tier 2.  The report counts one passed and one failed record. -/
def c7results : List (List ValidationResult) :=
  [[⟨1, "StructureValidator", true, [], []⟩,
    ⟨3, "NowonValidator", true, [],
      [⟨some ['0', '4', '0'], "warning", none⟩]⟩],
   [⟨2, "SemanticValidator", false,
      [⟨Severity.ERROR, some ['0', '4', '0'], "error", none⟩], []⟩]]

theorem C7_generate_report_witness :
    c7results.all (fun rs => rs.all tierOk) = true ∧
    ∃ rep, generateReport c7results = some rep ∧
      rep.total_records = c7results.length ∧
      rep.passed_records = (c7results.filter (fun rs => rs.all (fun r => r.passed))).length ∧
      rep.failed_records = (c7results.filter (fun rs => !rs.all (fun r => r.passed))).length :=
  ⟨by decide, C7_generate_report c7results (by decide)⟩

/-! ## C8: 23-character leader strings -/

/-- **C8.**  A 23-character leader string makes `Leader.from_string`
fail with a length-mismatch error carrying expected length 24 and found
length 23 (no truncation or padding), and `KORMARCParser.parse` on any
document whose first non-empty stripped line is such a string fails with
a `ParseError` wrapping that same leader error. -/
theorem C8_leader_length_mismatch :
    (∀ s : List Char, s.length = 23 →
      Leader.from_string s = .error (.lengthMismatch 24 23)) ∧
    (∀ doc s : List Char, s.length = 23 → (parseLinesOf doc).head? = some s →
      KORMARCParser.parse doc = .error (.leaderFailed (.lengthMismatch 24 23))) := by
  have h1 : ∀ s : List Char, s.length = 23 →
      Leader.from_string s = .error (.lengthMismatch 24 23) := by
    intro s hs
    unfold Leader.from_string LEADER_LENGTH
    rw [hs]
    simp
  refine ⟨h1, ?_⟩
  intro doc s hs hhead
  rcases hlines : parseLinesOf doc with _ | ⟨l0, rest⟩
  · rw [hlines] at hhead
    cases hhead
  · rw [hlines, List.head?_cons] at hhead
    injection hhead with h0
    subst h0
    simp [KORMARCParser.parse, hlines, h1 l0 hs]

def c8leader : List Char := "00714cam  2200205 a 450".toList

def c8doc : List Char := "00714cam  2200205 a 450\n001 1234567890\n".toList

theorem C8_leader_length_mismatch_witness :
    c8leader.length = 23 ∧ (parseLinesOf c8doc).head? = some c8leader ∧
    Leader.from_string c8leader = .error (.lengthMismatch 24 23) ∧
    KORMARCParser.parse c8doc = .error (.leaderFailed (.lengthMismatch 24 23)) :=
  ⟨by decide, by decide,
   C8_leader_length_mismatch.1 c8leader (by decide),
   C8_leader_length_mismatch.2 c8doc c8leader (by decide) (by decide)⟩

/-! ## C5: Leader string round trip -/

theorem digitChar_not_space : ∀ d < 10, pyIsSpaceChar (digitChar d) = false := by decide

theorem digitChar_isDigit : ∀ d < 10, pyIsDigit (digitChar d) = true := by decide

theorem digitChar_toNat : ∀ d < 10, (digitChar d).toNat - 48 = d := by decide

theorem digit_not_space {c : Char} (h : pyIsDigit c = true) : pyIsSpaceChar c = false := by
  simp only [pyIsDigit, Bool.and_eq_true, decide_eq_true_eq] at h
  have h1 : (48:Nat) ≤ c.toNat := char_le_toNat.mp h.1
  have h2 : c.toNat ≤ (57:Nat) := char_le_toNat.mp h.2
  rw [← Bool.not_eq_true]
  intro habs
  simp only [pyIsSpaceChar, Bool.or_eq_true, Bool.and_eq_true, decide_eq_true_eq,
    beq_iff_eq] at habs
  omega

theorem decChars_single (n : Nat) (h : n < 10) : decChars n = [digitChar n] := by
  simp [decChars, decCharsF, h]

theorem format05_eq (n : Nat) (h : n < 100000) :
    format05 n = [digitChar (n / 10000), digitChar (n / 1000 % 10), digitChar (n / 100 % 10),
      digitChar (n / 10 % 10), digitChar (n % 10)] := by
  simp [format05, h]

theorem pyInt_digit_list (l : List Char) (hne : l ≠ [])
    (hd : ∀ c ∈ l, pyIsDigit c = true) : pyInt l = some (digitsVal l) := by
  have hns : ∀ c ∈ l, pyIsSpaceChar c = false := fun c hc => digit_not_space (hd c hc)
  unfold pyInt
  rw [pyStrip_id l hns, if_pos]
  rw [Bool.and_eq_true]
  refine ⟨?_, ?_⟩
  · cases l with
    | nil => exact absurd rfl hne
    | cons a t => rfl
  · simp only [List.all_eq_true]
    intro c hc
    exact hd c hc

theorem pyInt_format05 (n : Nat) (h : n < 100000) : pyInt (format05 n) = some n := by
  have h0 : n / 10000 < 10 := by omega
  have h1 : n / 1000 % 10 < 10 := by omega
  have h2 : n / 100 % 10 < 10 := by omega
  have h3 : n / 10 % 10 < 10 := by omega
  have h4 : n % 10 < 10 := by omega
  rw [format05_eq n h, pyInt_digit_list _ (by simp)]
  · simp only [digitsVal, List.foldl_cons, List.foldl_nil,
      digitChar_toNat _ h0, digitChar_toNat _ h1, digitChar_toNat _ h2,
      digitChar_toNat _ h3, digitChar_toNat _ h4, Option.some.injEq]
    omega
  · intro c hc
    simp only [List.mem_cons, List.not_mem_nil, or_false] at hc
    rcases hc with rfl | rfl | rfl | rfl | rfl
    exacts [digitChar_isDigit _ h0, digitChar_isDigit _ h1, digitChar_isDigit _ h2,
      digitChar_isDigit _ h3, digitChar_isDigit _ h4]

theorem pyInt_digitChar (n : Nat) (h : n < 10) : pyInt [digitChar n] = some n := by
  rw [pyInt_digit_list _ (by simp)]
  · simp only [digitsVal, List.foldl_cons, List.foldl_nil, digitChar_toNat _ h,
      Option.some.injEq]
    omega
  · intro c hc
    simp only [List.mem_cons, List.not_mem_nil, or_false] at hc
    subst hc
    exact digitChar_isDigit _ h

theorem length_eq_four {α : Type} {l : List α} (h : l.length = 4) :
    ∃ a b c d, l = [a, b, c, d] := by
  rcases l with _ | ⟨a, l⟩
  · simp at h
  rcases l with _ | ⟨b, l⟩
  · simp at h
  rcases l with _ | ⟨c, l⟩
  · simp at h
  rcases l with _ | ⟨d, l⟩
  · simp at h
  rcases l with _ | ⟨e, l⟩
  · exact ⟨a, b, c, d, rfl⟩
  · simp at h

theorem construct_ok (rl : Nat) (rs tr bl : Char) (ct ce : List Char) (ic sc ba : Nat)
    (el dc ml em : List Char) (hrs : rs ∈ RECORD_STATUS_VALUES)
    (htr : tr ∈ TYPE_OF_RECORD_VALUES) (hbl : bl ∈ BIBLIOGRAPHIC_LEVEL_VALUES) :
    Leader.construct rl rs tr bl ct ce ic sc ba el dc ml em =
      .ok ⟨rl, rs, tr, bl, ct, ce, ic, sc, ba, el, dc, ml, em⟩ := by
  unfold Leader.construct
  rw [if_neg (not_not_intro hrs), if_neg (not_not_intro htr), if_neg (not_not_intro hbl)]

theorem from_string_explicit {x0 x1 x2 x3 x4 x5 x6 x7 x8 x9 x10 x11 x12 x13 x14 x15
    x16 x17 x18 x19 x20 x21 x22 x23 : Char} {rl ic sc ba : Nat}
    (h05 : pyInt [x0, x1, x2, x3, x4] = some rl)
    (h10 : pyInt [x10] = some ic) (h11 : pyInt [x11] = some sc)
    (h12 : pyInt [x12, x13, x14, x15, x16] = some ba) :
    Leader.from_string [x0, x1, x2, x3, x4, x5, x6, x7, x8, x9, x10, x11, x12, x13,
      x14, x15, x16, x17, x18, x19, x20, x21, x22, x23] =
    Leader.construct rl x5 x6 x7 [x8] [x9] ic sc ba [x17] [x18] [x19]
      [x20, x21, x22, x23] := by
  unfold Leader.from_string LEADER_LENGTH
  rw [if_neg (by simp)]
  simp only [List.take_succ_cons, List.take_zero, List.getD_cons_succ, List.getD_cons_zero,
    List.drop_succ_cons, List.drop_zero, h05, h10, h11, h12]

/-- A `Leader` built from valid enumerated inputs: the three coded
positions hold values from their closed sets, each single-position field
holds exactly one character, the entry map four, the two counters render
as one decimal digit and the two lengths as five. -/
abbrev validLeader (L : Leader) : Prop :=
  L.record_status ∈ RECORD_STATUS_VALUES ∧
  L.type_of_record ∈ TYPE_OF_RECORD_VALUES ∧
  L.bibliographic_level ∈ BIBLIOGRAPHIC_LEVEL_VALUES ∧
  L.control_type.length = 1 ∧ L.character_encoding.length = 1 ∧
  L.encoding_level.length = 1 ∧ L.descriptive_cataloging.length = 1 ∧
  L.multipart_level.length = 1 ∧ L.entry_map.length = 4 ∧
  L.record_length < 100000 ∧ L.base_address < 100000 ∧
  L.indicator_count < 10 ∧ L.subfield_code_count < 10

/-- **C5.**  For every `Leader` built from valid enumerated inputs,
`Leader.from_string (str leader)` reconstructs the leader exactly, and
`str leader` is exactly 24 characters long. -/
theorem C5_leader_roundtrip (L : Leader) (h : validLeader L) :
    Leader.from_string (leaderStr L) = .ok L ∧ (leaderStr L).length = 24 := by
  obtain ⟨rl, rs, tr, bl, ct, ce, ic, sc, ba, el, dc, ml, em⟩ := L
  obtain ⟨hrs, htr, hbl, hct, hce, hel, hdc, hml, hem, hrl, hba, hic, hsc⟩ := h
  obtain ⟨c8, rfl⟩ := List.length_eq_one.mp hct
  obtain ⟨c9, rfl⟩ := List.length_eq_one.mp hce
  obtain ⟨c17, rfl⟩ := List.length_eq_one.mp hel
  obtain ⟨c18, rfl⟩ := List.length_eq_one.mp hdc
  obtain ⟨c19, rfl⟩ := List.length_eq_one.mp hml
  obtain ⟨e0, e1, e2, e3, rfl⟩ := length_eq_four hem
  have hstr : leaderStr ⟨rl, rs, tr, bl, [c8], [c9], ic, sc, ba, [c17], [c18], [c19],
      [e0, e1, e2, e3]⟩ =
      [digitChar (rl / 10000), digitChar (rl / 1000 % 10), digitChar (rl / 100 % 10),
       digitChar (rl / 10 % 10), digitChar (rl % 10), rs, tr, bl, c8, c9,
       digitChar ic, digitChar sc,
       digitChar (ba / 10000), digitChar (ba / 1000 % 10), digitChar (ba / 100 % 10),
       digitChar (ba / 10 % 10), digitChar (ba % 10), c17, c18, c19, e0, e1, e2, e3] := by
    simp [leaderStr, format05_eq rl hrl, format05_eq ba hba, decChars_single ic hic,
      decChars_single sc hsc]
  refine ⟨?_, by rw [hstr]; simp⟩
  rw [hstr, from_string_explicit
    (by rw [← format05_eq rl hrl]; exact pyInt_format05 rl hrl)
    (pyInt_digitChar ic hic) (pyInt_digitChar sc hsc)
    (by rw [← format05_eq ba hba]; exact pyInt_format05 ba hba)]
  exact construct_ok rl rs tr bl [c8] [c9] ic sc ba [c17] [c18] [c19]
    [e0, e1, e2, e3] hrs htr hbl

def c5leader : Leader :=
  ⟨714, 'c', 'a', 'm', [' '], [' '], 2, 2, 205, [' '], ['a'], [' '], "4500".toList⟩

theorem C5_leader_roundtrip_witness :
    validLeader c5leader ∧
    (Leader.from_string (leaderStr c5leader) = .ok c5leader ∧
      (leaderStr c5leader).length = 24) :=
  ⟨by decide, C5_leader_roundtrip c5leader (by decide)⟩
